import Mathlib

/-!
Verification development for the lensGate protocol adapter (src/convert.ts).

The TypeScript source is shallowly embedded:
* JavaScript runtime values (the `unknown` events flowing through the stream
  adapter) are modelled by the inductive `JSValue`; JS numbers are modelled as
  `Int` (every value the adapter reads or writes is an integer count or index,
  and `Number.isFinite` holds for every modelled number).
* JS strings are modelled as Lean `String` / `List Char` (one `Char` per
  UTF-16 code unit of the source values that matter here, all of which are
  ASCII in the claims under study).
* Stateful code (`StreamState` mutation) becomes explicit state passing.
* Fallible code (`throw`) returns `Except`.
* The effectful boundary (network fetch) is a parameter: `toPiImageContent`
  takes the fetch outcome as an oracle argument.
-/

/-- Model of a JavaScript runtime value (the `unknown` type in convert.ts). -/
inductive JSValue where
  | str (s : String)
  | num (n : Int)
  | boolean (b : Bool)
  | null
  | undefined
  | arr (elems : List JSValue)
  | obj (fields : List (String × JSValue))

/-- `typeof v === "object" && v` — true for objects and arrays, false for
`null`, `undefined` and all primitives (mirrors the guard used by
`eventToSSEChunks` and `getEventType`). -/
def isObjectLike : JSValue → Bool
  | .obj _ => true
  | .arr _ => true
  | _ => false

/-- Property access `record[key]` on a JS value: the first matching field of
an object, `undefined` otherwise (arrays carry no string-named fields the
adapter ever reads). -/
def jsGet : JSValue → String → JSValue
  | .obj fields, key =>
    match fields.find? (fun kv => kv.1 == key) with
    | some kv => kv.2
    | none => .undefined
  | _, _ => .undefined

/-- Nullish coalescing `a ?? b`. -/
def jsNullish (a b : JSValue) : JSValue :=
  match a with
  | .null => b
  | .undefined => b
  | _ => a

/-- Strict equality of a JS value with a string literal (`v === "s"`). -/
def jsStrEq (v : JSValue) (s : String) : Bool :=
  match v with
  | .str t => t == s
  | _ => false

/-- JS string `||` chain: the first operand if it is non-empty, else the
second (empty strings are falsy). -/
def jsOrStr (a b : String) : String :=
  if a = "" then b else a

/-- convert.ts `readString`: the first listed field holding a non-empty
string, else the empty string. -/
def readString (record : JSValue) (keys : List String) : String :=
  match keys with
  | [] => ""
  | key :: rest =>
    match jsGet record key with
    | .str s => if s ≠ "" then s else readString record rest
    | _ => readString record rest

/-- convert.ts `readNumber`: the first listed field holding a finite number
(every modelled number is finite), else `none`. -/
def readNumber (record : JSValue) (keys : List String) : Option Int :=
  match keys with
  | [] => none
  | key :: rest =>
    match jsGet record key with
    | .num n => some n
    | _ => readNumber record rest

/-- convert.ts `safeNumber`: the first finite number among the values,
else 0. -/
def safeNumber (values : List JSValue) : Int :=
  match values with
  | [] => 0
  | v :: rest =>
    match v with
    | .num n => n
    | _ => safeNumber rest

/-- convert.ts `getEventType`: the first of `type`/`event`/`kind` holding a
string (possibly empty), else the empty string; non-objects yield "". -/
def getEventType (event : JSValue) : String :=
  if !isObjectLike event then ""
  else
    match jsGet event "type" with
    | .str s => s
    | _ =>
      match jsGet event "event" with
      | .str s => s
      | _ =>
        match jsGet event "kind" with
        | .str s => s
        | _ => ""

/-! JSON serialization, modelling `JSON.stringify` on the values the adapter
builds: object fields in insertion order, `undefined` fields omitted,
`undefined` array elements serialized as `null`, strings escaped as V8
does (short escapes for the common control characters, `\u00xx` for the
rest, `"` and `\` escaped). -/

/-- Lower-case hex digit. -/
def hexDigitChar (n : Nat) : Char :=
  ("0123456789abcdef".data.getD n '0')

/-- Escape one character of a JSON string per `JSON.stringify`. -/
def jsonEscapeChar (c : Char) : String :=
  if c = '"' then "\\\""
  else if c = '\\' then "\\\\"
  else if c = '\n' then "\\n"
  else if c = '\r' then "\\r"
  else if c = '\t' then "\\t"
  else if c.toNat = 8 then "\\b"
  else if c.toNat = 12 then "\\f"
  else if c.toNat < 32 then
    "\\u00" ++ String.mk [hexDigitChar (c.toNat / 16), hexDigitChar (c.toNat % 16)]
  else String.singleton c

/-- A JSON string literal for `s`. -/
def jsonQuote (s : String) : String :=
  "\"" ++ String.join (s.data.map jsonEscapeChar) ++ "\""

mutual

/-- `JSON.stringify` on the modelled values. -/
def stringifyVal : JSValue → String
  | .str s => jsonQuote s
  | .num n => toString n
  | .boolean b => if b then "true" else "false"
  | .null => "null"
  | .undefined => "null"
  | .arr es => "[" ++ String.intercalate "," (stringifyElems es) ++ "]"
  | .obj fs => "\x7b" ++ String.intercalate "," (stringifyFields fs) ++ "\x7d"

/-- Serialized array elements, in order. -/
def stringifyElems : List JSValue → List String
  | [] => []
  | v :: rest => stringifyVal v :: stringifyElems rest

/-- Serialized `key:value` pairs, in insertion order, `undefined` omitted. -/
def stringifyFields : List (String × JSValue) → List String
  | [] => []
  | (_, .undefined) :: rest => stringifyFields rest
  | (k, v) :: rest => (jsonQuote k ++ ":" ++ stringifyVal v) :: stringifyFields rest

end

mutual

/-- JS `String(v)` coercion on the modelled values. -/
def jsToString : JSValue → String
  | .str s => s
  | .num n => toString n
  | .boolean b => if b then "true" else "false"
  | .null => "null"
  | .undefined => "undefined"
  | .arr es => String.intercalate "," (jsToStringElems es)
  | .obj _ => "[object Object]"

/-- `Array.prototype.join(",")` element coercions (`null`/`undefined`
become the empty string). -/
def jsToStringElems : List JSValue → List String
  | [] => []
  | .null :: rest => "" :: jsToStringElems rest
  | .undefined :: rest => "" :: jsToStringElems rest
  | v :: rest => jsToString v :: jsToStringElems rest

end

/-! JS string primitives, modelled over `List Char` (one entry per code
unit; every character the claims exercise is ASCII, where JS and Lean
case/whitespace handling coincide). -/

/-- `String.prototype.split(sep)` (single-character separator):
`"a;;b" ↦ ["a","","b"]`, `"" ↦ [""]`. -/
def splitOnChar (sep : Char) : List Char → List (List Char)
  | [] => [[]]
  | c :: rest =>
    let parts := splitOnChar sep rest
    if c = sep then [] :: parts
    else
      match parts with
      | [] => [[c]]
      | p :: ps => (c :: p) :: ps

/-- Drop trailing characters satisfying `p`. -/
def dropTrailingWhile (p : Char → Bool) (cs : List Char) : List Char :=
  ((cs.reverse.dropWhile p).reverse)

/-- `String.prototype.trim()` on code-unit lists (ASCII whitespace; JS also
strips a handful of Unicode spaces that never occur in the claims). -/
def trimChars (cs : List Char) : List Char :=
  dropTrailingWhile Char.isWhitespace (cs.dropWhile Char.isWhitespace)

/-- `String.prototype.trim()`. -/
def jsTrim (s : String) : String :=
  (trimChars s.data).asString

/-- `String.prototype.toLowerCase()` (ASCII; `Char.toLower` only maps
`A`–`Z`, matching JS on every string the adapter handles). -/
def jsToLower (s : String) : String :=
  (s.data.map Char.toLower).asString

/-- `String.prototype.startsWith(pre)`. -/
def jsStartsWith (s pre : String) : Bool :=
  pre.data.isPrefixOf s.data

/-- `String.prototype.endsWith(suf)`. -/
def jsEndsWith (s suf : String) : Bool :=
  suf.data.isSuffixOf s.data

/-- `String.prototype.slice(n)` for `n ≥ 0`. -/
def jsDropChars (s : String) (n : Nat) : String :=
  (s.data.drop n).asString

/-- Decimal value of a digit list (caller guarantees digits). -/
def natOfDigits (ds : List Char) : Nat :=
  ds.foldl (fun acc c => acc * 10 + (c.toNat - '0'.toNat)) 0

/-- Is `c` an ASCII hex digit? -/
def isHexDigitChar (c : Char) : Bool :=
  c.isDigit || ('a' ≤ c && c ≤ 'f') || ('A' ≤ c && c ≤ 'F')

/-- Value of an ASCII hex digit. -/
def hexVal (c : Char) : Nat :=
  if c.isDigit then c.toNat - '0'.toNat
  else if 'a' ≤ c && c ≤ 'f' then c.toNat - 'a'.toNat + 10
  else if 'A' ≤ c && c ≤ 'F' then c.toNat - 'A'.toNat + 10
  else 0

/-- Hex value of a digit list (caller guarantees hex digits). -/
def natOfHexDigits (ds : List Char) : Nat :=
  ds.foldl (fun acc c => acc * 16 + hexVal c) 0

/-! Base64, modelling Node's `Buffer.from(s, "base64").toString("base64")`
pipeline: decoding ignores every character outside the base64 alphabet
(including `=` padding and whitespace) and drops a dangling single sextet;
encoding produces the canonical padded form. Bytes are `Nat`s below 256. -/

/-- The base64 alphabet, index order. -/
def b64Alphabet : List Char :=
  "ABCDEFGHIJKLMNOPQRSTUVWXYZabcdefghijklmnopqrstuvwxyz0123456789+/".data

/-- Character for sextet `n` (caller guarantees `n < 64`). -/
def b64Char (n : Nat) : Char :=
  b64Alphabet.getD n 'A'

/-- Index of `c` in `l`, counting from `i`. -/
def b64IndexFrom (i : Nat) : List Char → Char → Option Nat
  | [], _ => none
  | a :: rest, c => if a == c then some i else b64IndexFrom (i + 1) rest c

/-- Sextet for character `c`, `none` if `c` is outside the alphabet. -/
def b64CharVal (c : Char) : Option Nat :=
  b64IndexFrom 0 b64Alphabet c

/-- Canonical padded base64 encoding of a byte list. -/
def b64EncodeBytes : List Nat → List Char
  | [] => []
  | [b1] =>
    [b64Char (b1 / 4), b64Char (b1 % 4 * 16), '=', '=']
  | [b1, b2] =>
    [b64Char (b1 / 4), b64Char (b1 % 4 * 16 + b2 / 16), b64Char (b2 % 16 * 4), '=']
  | b1 :: b2 :: b3 :: rest =>
    b64Char (b1 / 4) :: b64Char (b1 % 4 * 16 + b2 / 16) ::
      b64Char (b2 % 16 * 4 + b3 / 64) :: b64Char (b3 % 64) :: b64EncodeBytes rest

/-- The sextets of a character list, non-alphabet characters ignored. -/
def b64Sextets (cs : List Char) : List Nat :=
  cs.filterMap b64CharVal

/-- Bytes of a sextet list (dangling single sextet dropped, as Node does). -/
def b64DecodeSextets : List Nat → List Nat
  | s1 :: s2 :: s3 :: s4 :: rest =>
    (s1 * 4 + s2 / 16) :: (s2 % 16 * 16 + s3 / 4) :: (s3 % 4 * 64 + s4) ::
      b64DecodeSextets rest
  | [s1, s2, s3] => [s1 * 4 + s2 / 16, s2 % 16 * 16 + s3 / 4]
  | [s1, s2] => [s1 * 4 + s2 / 16]
  | _ => []

/-- Base64 decoding of a character list. -/
def b64Decode (cs : List Char) : List Nat :=
  b64DecodeSextets (b64Sextets cs)

/-! Image ingestion (convert.ts lines 15-240). -/

/-- Modelled image-ingestion failures: every `ImageNotSupportedError` message
the source throws, plus the `URIError` that `decodeURIComponent` raises on a
malformed percent escape and that convert.ts does not catch. -/
inductive ImageError where
  | notSupported (message : String)
  | uriError
deriving DecidableEq

/-- The `{mimeType, data}` payload produced by the data-URI and remote
paths. -/
structure ParsedImage where
  mimeType : String
  data : String
deriving DecidableEq

/-- The `{type: "image", data, mimeType}` content part. -/
structure PiImage where
  type : String
  data : String
  mimeType : String
deriving DecidableEq

/-- convert.ts `isImageMimeType`. -/
def isImageMimeType (mimeType : String) : Bool :=
  jsStartsWith (jsToLower mimeType) "image/"

/-- `String.prototype.indexOf(",")` as an option. -/
def findCommaIdx : List Char → Option Nat
  | [] => none
  | c :: rest => if c == ',' then some 0 else (findCommaIdx rest).map (· + 1)

/-- Modelled from the platform: `decodeURIComponent`, bytewise. A malformed
percent escape (missing or non-hex digit) makes it throw `URIError` (`none`
here); UTF-8 re-validation of multi-byte sequences is elided — each `%XX`
decodes to the character with code `XX`, agreeing with `decodeURIComponent`
on ASCII payloads. -/
def percentDecodeChars : List Char → Option (List Char)
  | [] => some []
  | '%' :: c1 :: c2 :: rest =>
    if isHexDigitChar c1 && isHexDigitChar c2 then
      (percentDecodeChars rest).map (fun ds => Char.ofNat (hexVal c1 * 16 + hexVal c2) :: ds)
    else none
  | '%' :: _ => none
  | c :: rest => (percentDecodeChars rest).map (c :: ·)

/-- UTF-8 encoding of one character (`Buffer.from(s, "utf8")`). -/
def utf8EncodeChar (c : Char) : List Nat :=
  let n := c.toNat
  if n < 128 then [n]
  else if n < 2048 then [192 + n / 64, 128 + n % 64]
  else if n < 65536 then [224 + n / 4096, 128 + n / 64 % 64, 128 + n % 64]
  else [240 + n / 262144, 128 + n / 4096 % 64, 128 + n / 64 % 64, 128 + n % 64]

/-- UTF-8 encoding of a character list. -/
def utf8Encode (cs : List Char) : List Nat :=
  (cs.map utf8EncodeChar).flatten

/-- convert.ts `parseDataUrl` (lines 113-141): split at the first comma,
lower-case and trim the `;`-separated metadata, validate an image mime
type, then pass base64 payloads through Node's decode–re-encode and
percent-decode plus base64-encode everything else. -/
def parseDataUrl (dataUrl : String) : Except ImageError ParsedImage :=
  let cs := dataUrl.data
  match findCommaIdx cs with
  | none => .error (.notSupported "Invalid image_url data URI.")
  | some commaIndex =>
    let metadata := (cs.drop 5).take (commaIndex - 5)
    let payload := cs.drop (commaIndex + 1)
    let metadataParts :=
      ((splitOnChar ';' metadata).map (fun part => (trimChars part).map Char.toLower)).filter
        (fun part => part.length > 0)
    let mimeType :=
      match metadataParts with
      | first :: _ => if first.contains '=' then "text/plain".data else first
      | [] => "text/plain".data
    if !isImageMimeType mimeType.asString then
      .error (.notSupported ("Unsupported image_url media type '" ++ mimeType.asString ++ "'."))
    else
      let isBase64 := metadataParts.contains "base64".data
      if isBase64 then
        let normalized := trimChars payload
        if normalized.length = 0 then
          .error (.notSupported "image_url data URI is empty.")
        else .ok ⟨mimeType.asString, (b64EncodeBytes (b64Decode normalized)).asString⟩
      else
        match percentDecodeChars payload with
        | none => .error .uriError
        | some decoded => .ok ⟨mimeType.asString, (b64EncodeBytes (utf8Encode decoded)).asString⟩

/-- The three `URL` fields convert.ts reads. -/
structure URLRec where
  protocol : String
  hostname : String
  pathname : String
deriving DecidableEq

/-- Is `c` allowed in a URL scheme? -/
def isSchemeChar (c : Char) : Bool :=
  c.isAlpha || c.isDigit || c == '+' || c == '-' || c == '.'

/-- Modelled from the platform: the WHATWG `URL` constructor, reduced to the
fields convert.ts reads. A valid input is `scheme:` (first character a
letter) followed by `//authority[path]` or an opaque rest; schemes and
hostnames are lower-cased; userinfo and ports are stripped; an absent path
serializes as `/`. For a bracketed IPv6 authority the WHATWG `hostname`
getter returns the serialized host, which KEEPS the brackets — Node's
`new URL("http://[::1]/").hostname` is `"[::1]"` — so the model keeps them
too (the canonical re-serialization of the address inside the brackets is
not modelled; the literals studied are already canonical). A missing scheme
or an unterminated bracket is a parse failure (the constructor throw). -/
def parseURL (s : String) : Option URLRec :=
  let cs := s.data
  let scheme := cs.takeWhile isSchemeChar
  let rest := cs.drop scheme.length
  match rest with
  | ':' :: afterColon =>
    if scheme.length = 0 || !(scheme.headD 'a').isAlpha then none
    else
      let proto := ((scheme.map Char.toLower) ++ [':']).asString
      match afterColon with
      | '/' :: '/' :: afterSlashes =>
        let authority := afterSlashes.takeWhile (fun c => !(c == '/' || c == '?' || c == '#'))
        let afterAuth := afterSlashes.drop authority.length
        let hostPort :=
          if authority.contains '@' then (authority.reverse.takeWhile (fun c => !(c == '@'))).reverse
          else authority
        let host? :=
          match hostPort with
          | '[' :: bracketRest =>
            if bracketRest.contains ']' then
              some ('[' :: bracketRest.takeWhile (fun c => !(c == ']')) ++ [']'])
            else none
          | _ => some (hostPort.takeWhile (fun c => !(c == ':')))
        let path :=
          match afterAuth with
          | [] => "/".data
          | l => l.takeWhile (fun c => !(c == '?' || c == '#'))
        match host? with
        | some host => some ⟨proto, (host.map Char.toLower).asString, path.asString⟩
        | none => none
      | _ =>
        some ⟨proto, "", (afterColon.takeWhile (fun c => !(c == '?' || c == '#'))).asString⟩
  | _ => none

/-- convert.ts `inferMimeTypeFromUrl` (lines 73-86): mime type from the
lower-cased pathname extension. -/
def inferMimeTypeFromUrl (url : URLRec) : Option String :=
  let pathname := jsToLower url.pathname
  if jsEndsWith pathname ".png" then some "image/png"
  else if jsEndsWith pathname ".jpg" || jsEndsWith pathname ".jpeg" then some "image/jpeg"
  else if jsEndsWith pathname ".webp" then some "image/webp"
  else if jsEndsWith pathname ".gif" then some "image/gif"
  else if jsEndsWith pathname ".bmp" then some "image/bmp"
  else if jsEndsWith pathname ".svg" then some "image/svg+xml"
  else if jsEndsWith pathname ".avif" then some "image/avif"
  else if jsEndsWith pathname ".tif" || jsEndsWith pathname ".tiff" then some "image/tiff"
  else if jsEndsWith pathname ".heic" then some "image/heic"
  else if jsEndsWith pathname ".heif" then some "image/heif"
  else none

/-! Literal IP classification, modelling Node's `net.isIP`, and the
`PRIVATE_ADDRESS_BLOCKLIST` built in convert.ts lines 17-28 with
`BlockList.check` modelled as prefix-range arithmetic. -/

/-- One dotted-quad part: 1-3 digits, no leading zero, value ≤ 255. -/
def parseV4Part (part : List Char) : Option Nat :=
  if part.length = 0 then none
  else if !(part.all Char.isDigit) then none
  else if part.length > 1 && part.headD '0' == '0' then none
  else if part.length > 3 then none
  else
    let v := natOfDigits part
    if v ≤ 255 then some v else none

/-- Node `net.isIP(s) === 4`: a strict dotted quad. -/
def parseIPv4 (cs : List Char) : Option (Nat × Nat × Nat × Nat) :=
  match (splitOnChar '.' cs).mapM parseV4Part with
  | some [a, b, c, d] => some (a, b, c, d)
  | _ => none

/-- One IPv6 group: 1-4 hex digits. -/
def parseHexGroup (part : List Char) : Option Nat :=
  if part.length = 0 || part.length > 4 || !(part.all isHexDigitChar) then none
  else some (natOfHexDigits part)

/-- A colon-separated group sequence; when `v4Tail` is set the final part
may be a dotted quad contributing two groups. -/
def parseGroupSeq (v4Tail : Bool) : List (List Char) → Option (List Nat)
  | [] => some []
  | [part] =>
    if v4Tail && part.contains '.' then
      match parseIPv4 part with
      | some (a, b, c, d) => some [a * 256 + b, c * 256 + d]
      | none => none
    else (parseHexGroup part).map ([·])
  | part :: rest =>
    match parseHexGroup part, parseGroupSeq v4Tail rest with
    | some g, some gs => some (g :: gs)
    | _, _ => none

/-- Locate the first `::`, returning the code units before and after it. -/
def findDoubleColon : List Char → Option (List Char × List Char)
  | ':' :: ':' :: rest => some ([], rest)
  | c :: rest => (findDoubleColon rest).map (fun pr => (c :: pr.1, pr.2))
  | [] => none

/-- Node `net.isIP(s) === 6` (zone indices are not modelled; none of the
adapter's inputs carry them): at most one `::`, 1-4 hex digit groups, an
optional trailing dotted quad, eight 16-bit groups in total. -/
def parseIPv6 (cs : List Char) : Option (List Nat) :=
  match findDoubleColon cs with
  | some (lhs, rhs) =>
    if (findDoubleColon rhs).isSome then none
    else
      let lgs? := if lhs.length = 0 then some [] else parseGroupSeq false (splitOnChar ':' lhs)
      let rgs? := if rhs.length = 0 then some [] else parseGroupSeq true (splitOnChar ':' rhs)
      match lgs?, rgs? with
      | some lgs, some rgs =>
        if lgs.length + rgs.length ≤ 7 then
          some (lgs ++ List.replicate (8 - lgs.length - rgs.length) 0 ++ rgs)
        else none
      | _, _ => none
  | none =>
    match parseGroupSeq true (splitOnChar ':' cs) with
    | some gs => if gs.length = 8 then some gs else none
    | none => none

/-- Node `net.isIP`. -/
def isIP (s : String) : Nat :=
  if (parseIPv4 s.data).isSome then 4
  else if (parseIPv6 s.data).isSome then 6
  else 0

/-- The IPv4 subnets added to `PRIVATE_ADDRESS_BLOCKLIST` (convert.ts lines
18-24): 0.0.0.0/8, 10.0.0.0/8, 100.64.0.0/10, 127.0.0.0/8, 169.254.0.0/16,
172.16.0.0/12, 192.168.0.0/16. -/
def ipv4Blocked : Nat × Nat × Nat × Nat → Bool
  | (a, b, _, _) =>
    a == 0 || a == 10 || (a == 100 && decide (64 ≤ b) && decide (b ≤ 127)) || a == 127 ||
      (a == 169 && b == 254) || (a == 172 && decide (16 ≤ b) && decide (b ≤ 31)) ||
      (a == 192 && b == 168)

/-- The IPv6 subnets added to `PRIVATE_ADDRESS_BLOCKLIST` (convert.ts lines
25-28): ::/128, ::1/128, fc00::/7, fe80::/10. -/
def ipv6Blocked (groups : List Nat) : Bool :=
  groups == [0, 0, 0, 0, 0, 0, 0, 0] || groups == [0, 0, 0, 0, 0, 0, 0, 1] ||
    (match groups.head? with
     | some g0 =>
       (decide (64512 ≤ g0) && decide (g0 ≤ 65023)) ||
         (decide (65152 ≤ g0) && decide (g0 ≤ 65215))
     | none => false)

/-- `PRIVATE_ADDRESS_BLOCKLIST.check(s, "ipv4")`. -/
def blockListCheckV4 (s : String) : Bool :=
  match parseIPv4 s.data with
  | some ip => ipv4Blocked ip
  | none => false

/-- `PRIVATE_ADDRESS_BLOCKLIST.check(s, "ipv6")`. -/
def blockListCheckV6 (s : String) : Bool :=
  match parseIPv6 s.data with
  | some groups => ipv6Blocked groups
  | none => false

/-- The `hostname.trim().toLowerCase().replace(/\.$/, "")` normalization. -/
def normalizeHostname (hostname : String) : String :=
  let t := jsToLower (jsTrim hostname)
  if jsEndsWith t "." then t.data.dropLast.asString else t

/-- convert.ts `isBlockedImageHostname` (lines 88-111). -/
def isBlockedImageHostname (hostname : String) : Bool :=
  let normalized := normalizeHostname hostname
  if normalized == "" then true
  else if normalized == "localhost" || jsEndsWith normalized ".localhost" then true
  else
    let ipVersion := isIP normalized
    if ipVersion == 4 then blockListCheckV4 normalized
    else if ipVersion == 6 then
      (if jsStartsWith normalized "::ffff:" then
        (let mapped := jsDropChars normalized 7
         if isIP mapped == 4 && blockListCheckV4 mapped then true
         else blockListCheckV6 normalized)
       else blockListCheckV6 normalized)
    else false

/-! The remote fetch pipeline (convert.ts lines 143-240), with the network
modelled as an oracle. -/

/-- `fetch`'s observable outcome: the response, or a thrown error (network
failure or the 20-second abort). -/
structure FetchResponse where
  ok : Bool
  status : Nat
  contentType : Option String
  bodyChunks : Option (List (List Nat))
  fullBody : List Nat

/-- Outcome of awaiting `fetch`. -/
inductive FetchOutcome where
  | failure (message : String)
  | success (resp : FetchResponse)

/-- convert.ts `MAX_REMOTE_IMAGE_BYTES`. -/
def MAX_REMOTE_IMAGE_BYTES : Nat := 20 * 1024 * 1024

/-- The reader loop of `readResponseBodyLimited` (lines 153-173): accumulate
chunks, failing the moment the running byte total exceeds `maxBytes`;
chunks after the offending one are never consumed. -/
def readChunksLimited (chunks : List (List Nat)) (maxBytes totalBytes : Nat) :
    Except ImageError (List (List Nat)) :=
  match chunks with
  | [] => .ok []
  | c :: rest =>
    let total := totalBytes + c.length
    if total > maxBytes then
      .error (.notSupported ("Remote image exceeds " ++ toString maxBytes ++ " bytes."))
    else
      match readChunksLimited rest maxBytes total with
      | .ok bufs => .ok (c :: bufs)
      | .error e => .error e

/-- convert.ts `readResponseBodyLimited`: the streaming path when the
response has a body reader, the `arrayBuffer` fallback otherwise. -/
def readResponseBodyLimited (response : FetchResponse) (maxBytes : Nat) :
    Except ImageError (List Nat) :=
  match response.bodyChunks with
  | none =>
    if response.fullBody.length > maxBytes then
      .error (.notSupported ("Remote image exceeds " ++ toString maxBytes ++ " bytes."))
    else .ok response.fullBody
  | some chunks =>
    match readChunksLimited chunks maxBytes 0 with
    | .ok bufs => .ok bufs.flatten
    | .error e => .error e

/-- convert.ts line 190: the lower-cased media type of the `content-type`
header (`contentTypeHeader?.split(";")[0]?.trim().toLowerCase() ?? ""`). -/
def headerMimeTypeOf (contentType : Option String) : String :=
  match contentType with
  | some header =>
    match splitOnChar ';' header.data with
    | part :: _ => ((trimChars part).map Char.toLower).asString
    | [] => ""
  | none => ""

/-- convert.ts `fetchRemoteImageAsBase64`; the catch block wraps every
non-`ImageNotSupportedError` (modelled by `FetchOutcome.failure`) into an
`ImageNotSupportedError`. -/
def fetchRemoteImageAsBase64 (fetchFn : URLRec → FetchOutcome) (url : URLRec) :
    Except ImageError ParsedImage :=
  match fetchFn url with
  | .failure message => .error (.notSupported ("Failed to fetch image_url: " ++ message))
  | .success response =>
    if !response.ok then
      .error (.notSupported ("Failed to fetch image_url. HTTP " ++ toString response.status ++ "."))
    else
      let headerMimeType := headerMimeTypeOf response.contentType
      let mimeType? :=
        if isImageMimeType headerMimeType then some headerMimeType
        else inferMimeTypeFromUrl url
      match mimeType? with
      | none => .error (.notSupported "Could not determine image_url media type.")
      | some mimeType =>
        match readResponseBodyLimited response MAX_REMOTE_IMAGE_BYTES with
        | .error e => .error e
        | .ok bytes =>
          if bytes.length = 0 then .error (.notSupported "image_url resolved to an empty body.")
          else .ok ⟨mimeType, (b64EncodeBytes bytes).asString⟩

/-- convert.ts `toPiImageContent` (lines 213-240). -/
def toPiImageContent (fetchFn : URLRec → FetchOutcome) (urlValue : String) :
    Except ImageError PiImage :=
  let trimmedUrl := jsTrim urlValue
  if trimmedUrl == "" then .error (.notSupported "image_url.url must be a non-empty string.")
  else if jsStartsWith (jsToLower trimmedUrl) "data:" then
    match parseDataUrl trimmedUrl with
    | .ok parsed => .ok ⟨"image", parsed.data, parsed.mimeType⟩
    | .error e => .error e
  else
    match parseURL trimmedUrl with
    | none => .error (.notSupported "image_url.url must be a valid URL.")
    | some parsedUrl =>
      if parsedUrl.protocol ≠ "http:" ∧ parsedUrl.protocol ≠ "https:" then
        .error (.notSupported "Only http(s) and data URI image_url values are supported.")
      else if isBlockedImageHostname parsedUrl.hostname then
        .error (.notSupported "image_url host is not allowed.")
      else
        match fetchRemoteImageAsBase64 fetchFn parsedUrl with
        | .ok remote => .ok ⟨"image", remote.data, remote.mimeType⟩
        | .error e => .error e

/-! The streaming adapter (convert.ts lines 37-49 and 401-706). -/

/-- Normalized usage; the two constant-filled `_details` sub-objects are
flattened to their only varying fields (`completion_tokens_details.
reasoning_tokens` and `prompt_tokens_details.cached_tokens`). -/
structure OpenAIUsage where
  prompt_tokens : Int
  completion_tokens : Int
  total_tokens : Int
  reasoning_tokens : Int
  cached_tokens : Int
deriving DecidableEq

/-- convert.ts `StreamState` (lines 37-49); the `Map` is an
insertion-ordered association list and the `Set` a membership list. -/
structure StreamState where
  completionId : String
  model : String
  created : Int
  toolCallIndexMap : List (Int × Int)
  nextToolCallIndex : Int
  textDeltaSeen : List Int
  emittedAnyOutput : Bool
  accumulatedText : String
  streamFinishReason : Option String
  streamUsage : Option OpenAIUsage
  streamMessage : Option JSValue

/-- `Map.get` on the association list. -/
def mapGet (m : List (Int × Int)) (k : Int) : Option Int :=
  (m.find? (fun kv => kv.1 == k)).map (fun kv => kv.2)

/-- convert.ts `createStreamState` (lines 511-525); the impure
`generateCompletionId()` and `Date.now()` results are parameters. -/
def createStreamState (completionId modelId : String) (created : Int) : StreamState :=
  ⟨completionId, modelId, created, [], 0, [], false, "", none, none, none⟩

/-- convert.ts `formatSSEDataLine`. -/
def formatSSEDataLine (payload : JSValue) : String :=
  "data: " ++ stringifyVal payload ++ "\n\n"

/-- convert.ts `mapStopReason` (lines 405-421). -/
def mapStopReason (stopReason : JSValue) : String :=
  if jsStrEq stopReason "tool_calls" || jsStrEq stopReason "tool_call" ||
      jsStrEq stopReason "toolUse" || jsStrEq stopReason "tool_use" then "tool_calls"
  else if jsStrEq stopReason "max_tokens" || jsStrEq stopReason "length" then "length"
  else if jsStrEq stopReason "content_filter" || jsStrEq stopReason "error" ||
      jsStrEq stopReason "aborted" then "content_filter"
  else "stop"

/-- convert.ts `toChunk` (lines 423-443), as the JSON payload it serializes
to. -/
def toChunk (state : StreamState) (delta : JSValue) (finishReason : Option String) : JSValue :=
  .obj [("id", .str state.completionId),
        ("object", .str "chat.completion.chunk"),
        ("created", .num state.created),
        ("model", .str state.model),
        ("system_fingerprint", .str "fp_lensgate"),
        ("choices", .arr [.obj [("index", .num 0),
                                ("delta", delta),
                                ("logprobs", .null),
                                ("finish_reason",
                                  match finishReason with
                                  | some r => .str r
                                  | none => .null)]])]

/-- convert.ts lines 482-509: the id and name of the `toolCall` item at
`contentIndex` inside the event's embedded preview payload, if present. -/
def readEmbeddedToolCall (record : JSValue) (contentIndex : Int) : Option (String × String) :=
  let preview := jsGet record "partial"
  if !isObjectLike preview then none
  else
    match jsGet preview "content" with
    | .arr content =>
      if contentIndex < 0 ∨ (content.length : Int) ≤ contentIndex then none
      else
        match content.get? contentIndex.toNat with
        | some item =>
          if isObjectLike item && jsStrEq (jsGet item "type") "toolCall" then
            some ((match jsGet item "id" with | .str s => s | _ => ""),
                  (match jsGet item "name" with | .str s => s | _ => ""))
          else none
        | none => none
    | _ => none

/-- The usage normalization inside the `done` handler (lines 665-674); the
`|| inputTokens + cacheRead + outputTokens` fallback fires when the explicit
total is absent or 0 (JS `||` treats 0 as falsy). -/
def streamUsageOf (usage : JSValue) : OpenAIUsage :=
  let inputTokens :=
    safeNumber [jsGet usage "input", jsGet usage "inputTokens", jsGet usage "prompt_tokens"]
  let outputTokens :=
    safeNumber [jsGet usage "output", jsGet usage "outputTokens", jsGet usage "completion_tokens"]
  let cacheRead :=
    safeNumber [jsGet usage "cacheRead", jsGet usage "cacheReadTokens", jsGet usage "cached_tokens"]
  let explicitTotal := safeNumber [jsGet usage "totalTokens", jsGet usage "total_tokens"]
  { prompt_tokens := inputTokens + cacheRead
    completion_tokens := outputTokens
    total_tokens :=
      if explicitTotal = 0 then inputTokens + cacheRead + outputTokens else explicitTotal
    reasoning_tokens := 0
    cached_tokens := cacheRead }

/-- The `start` branch (lines 536-539). -/
def handleStart (state : StreamState) : List String × StreamState :=
  ([formatSSEDataLine (toChunk state (.obj [("role", .str "assistant")]) none)], state)

/-- The `text_delta` branch (lines 541-551). -/
def handleTextDelta (record : JSValue) (state : StreamState) : List String × StreamState :=
  let deltaText := readString record ["delta", "text", "content"]
  let contentIndex := (readNumber record ["contentIndex", "index"]).getD 0
  if deltaText ≠ "" then
    let state1 := { state with
      textDeltaSeen :=
        if contentIndex ∈ state.textDeltaSeen then state.textDeltaSeen
        else contentIndex :: state.textDeltaSeen
      emittedAnyOutput := true
      accumulatedText := state.accumulatedText ++ deltaText }
    ([formatSSEDataLine (toChunk state1 (.obj [("content", .str deltaText)]) none)], state1)
  else ([], state)

/-- The `text_end` branch (lines 553-563): emit the terminal full text only
when no delta was seen for this content index. -/
def handleTextEnd (record : JSValue) (state : StreamState) : List String × StreamState :=
  let contentIndex := (readNumber record ["contentIndex", "index"]).getD 0
  let text := readString record ["content", "text", "delta"]
  if text ≠ "" ∧ contentIndex ∉ state.textDeltaSeen then
    let state1 := { state with
      emittedAnyOutput := true
      accumulatedText := state.accumulatedText ++ text }
    ([formatSSEDataLine (toChunk state1 (.obj [("content", .str text)]) none)], state1)
  else ([], state)

/-- The slot-resolution block shared by `toolcall_start` and `toolcall_delta`
(lines 567-572 and 599-604): look the upstream content index up in
`toolCallIndexMap`, allocating the next OpenAI slot when absent. -/
def resolveToolCallSlot (state : StreamState) (contentIndex : Int) : Int × StreamState :=
  match mapGet state.toolCallIndexMap contentIndex with
  | some idx => (idx, state)
  | none =>
    (state.nextToolCallIndex,
     { state with
        toolCallIndexMap := state.toolCallIndexMap ++ [(contentIndex, state.nextToolCallIndex)]
        nextToolCallIndex := state.nextToolCallIndex + 1 })

/-- The `toolcall_start` branch (lines 565-595). -/
def handleToolcallStart (record : JSValue) (state : StreamState) : List String × StreamState :=
  let contentIndex :=
    (readNumber record ["contentIndex", "index", "toolCallIndex"]).getD state.nextToolCallIndex
  let resolved := resolveToolCallSlot state contentIndex
  let openAiToolCallIndex := resolved.1
  let embedded := readEmbeddedToolCall record contentIndex
  let toolCallId :=
    jsOrStr (match embedded with | some e => e.1 | none => "")
      (jsOrStr (readString record ["id", "toolCallId"]) ("call_" ++ toString openAiToolCallIndex))
  let toolName :=
    jsOrStr (match embedded with | some e => e.2 | none => "")
      (jsOrStr (readString record ["name", "toolName"]) "tool")
  let delta : JSValue :=
    .obj [("tool_calls",
           .arr [.obj [("id", .str toolCallId),
                       ("type", .str "function"),
                       ("function", .obj [("name", .str toolName), ("arguments", .str "")]),
                       ("index", .num openAiToolCallIndex)]])]
  let state2 := { resolved.2 with emittedAnyOutput := true }
  ([formatSSEDataLine (toChunk state2 delta none)], state2)

/-- The `toolcall_delta` branch (lines 597-630). -/
def handleToolcallDelta (record : JSValue) (state : StreamState) : List String × StreamState :=
  let contentIndex := (readNumber record ["contentIndex", "index", "toolCallIndex"]).getD 0
  let resolved := resolveToolCallSlot state contentIndex
  let openAiToolCallIndex := resolved.1
  let embedded := readEmbeddedToolCall record contentIndex
  let argumentsDelta :=
    jsOrStr (readString record ["delta", "argumentsDelta", "arguments", "textDelta"])
      (jsToString (jsNullish (jsGet record "value") (.str "")))
  if argumentsDelta ≠ "" ∨ embedded.isSome then
    let functionFields :=
      ("arguments", JSValue.str argumentsDelta) ::
        (match embedded with
         | some e => if e.2 ≠ "" then [("name", JSValue.str e.2)] else []
         | none => [])
    let toolCallDelta : JSValue :=
      .obj ([("index", JSValue.num openAiToolCallIndex), ("function", JSValue.obj functionFields)] ++
        (match embedded with
         | some e => if e.1 ≠ "" then [("id", JSValue.str e.1)] else []
         | none => []))
    let delta : JSValue := .obj [("tool_calls", .arr [toolCallDelta])]
    let state2 := { resolved.2 with emittedAnyOutput := true }
    ([formatSSEDataLine (toChunk state2 delta none)], state2)
  else ([], resolved.2)

/-- The `error` branch (lines 632-651). -/
def handleError (record : JSValue) (state : StreamState) : List String × StreamState :=
  let errorRecord := jsGet record "error"
  let message :=
    jsOrStr (readString record ["errorMessage", "message"])
      (jsOrStr (if isObjectLike errorRecord then readString errorRecord ["errorMessage", "message"]
                else "")
        "Upstream model error.")
  ([formatSSEDataLine (.obj [("error", .obj [("message", .str message),
                                             ("type", .str "server_error"),
                                             ("param", .null),
                                             ("code", .str "upstream_model_error")])])],
   state)

/-- The `done` branch (lines 653-680). -/
def handleDone (record : JSValue) (state : StreamState) : List String × StreamState :=
  let finishReason := mapStopReason (jsNullish (jsGet record "reason") (jsGet record "stopReason"))
  let state1 := { state with streamFinishReason := some finishReason }
  let msg := jsGet record "message"
  let state2 :=
    if isObjectLike msg then
      let stateMsg := { state1 with streamMessage := some msg }
      let usage := jsGet msg "usage"
      if isObjectLike usage then { stateMsg with streamUsage := some (streamUsageOf usage) }
      else stateMsg
    else state1
  ([formatSSEDataLine (toChunk state2 (.obj []) (some finishReason))], state2)

/-- convert.ts `eventToSSEChunks` (lines 527-683). -/
def eventToSSEChunks (event : JSValue) (state : StreamState) : List String × StreamState :=
  if !isObjectLike event then ([], state)
  else
    let record := event
    let eventType := getEventType event
    if eventType = "start" then handleStart state
    else if eventType = "text_delta" then handleTextDelta record state
    else if eventType = "text_end" then handleTextEnd record state
    else if eventType = "toolcall_start" then handleToolcallStart record state
    else if eventType = "toolcall_delta" then handleToolcallDelta record state
    else if eventType = "error" then handleError record state
    else if eventType = "done" then handleDone record state
    else ([], state)

/-- Fold of `eventToSSEChunks` over an upstream event sequence, accumulating
the emitted SSE chunk strings. -/
def processEvents (events : List JSValue) (state : StreamState) : List String × StreamState :=
  match events with
  | [] => ([], state)
  | e :: rest =>
    let step := eventToSSEChunks e state
    let next := processEvents rest step.2
    (step.1 ++ next.1, next.2)

/-! The non-streaming response assembler (convert.ts lines 708-855). -/

/-- One normalized OpenAI tool call (`type` is always `"function"`). -/
structure OpenAIToolCallOut where
  id : String
  type : String
  name : String
  argumentsText : String
deriving DecidableEq

/-- convert.ts `stringifyToolArguments`: pass strings through, otherwise
`JSON.stringify(value ?? ⦃⦄)`; serialization is total in the model, so the
catch fallback to `"\x7b\x7d"` is unreachable. -/
def stringifyToolArguments (value : JSValue) : String :=
  match value with
  | .str s => s
  | v => stringifyVal (jsNullish v (.obj []))

/-- One content item's contribution to the assistant text (lines 728-742):
`text`- or `output_text`-tagged objects with string `text`. -/
def assistantTextItem (item : JSValue) : Option String :=
  if isObjectLike item then
    if jsStrEq (jsGet item "type") "text" then
      match jsGet item "text" with | .str s => some s | _ => none
    else if jsStrEq (jsGet item "type") "output_text" then
      match jsGet item "text" with | .str s => some s | _ => none
    else none
  else none

/-- convert.ts `assistantTextFromMessage` (lines 719-743). -/
def assistantTextFromMessage (message : JSValue) : String :=
  match jsGet message "content" with
  | .str s => s
  | .arr items => String.join (items.filterMap assistantTextItem)
  | _ => ""

/-- Is `item` a `toolCall`-tagged object (line 754)? -/
def isToolCallItem (item : JSValue) : Bool :=
  isObjectLike item && jsStrEq (jsGet item "type") "toolCall"

/-- The candidate loop of `openAiToolCallsFromMessage` (lines 759-787). -/
def buildToolCalls : List JSValue → Nat → List OpenAIToolCallOut
  | [], _ => []
  | item :: rest, i =>
    if !isObjectLike item then buildToolCalls rest (i + 1)
    else
      let functionRecord := jsGet item "function"
      let hasFunction := isObjectLike functionRecord
      let name :=
        jsOrStr (match jsGet item "name" with | .str s => s | _ => "")
          (jsOrStr (match jsGet item "toolName" with | .str s => s | _ => "")
            (jsOrStr (if hasFunction then
                        (match jsGet functionRecord "name" with | .str s => s | _ => "")
                      else "")
              "tool"))
      let id :=
        jsOrStr (match jsGet item "id" with | .str s => s | _ => "")
          (jsOrStr (match jsGet item "toolCallId" with | .str s => s | _ => "")
            ("call_" ++ toString i))
      let args :=
        stringifyToolArguments
          (jsNullish (jsGet item "arguments")
            (jsNullish (if hasFunction then jsGet functionRecord "arguments" else .undefined)
              (jsNullish (jsGet item "input") (.obj []))))
      ⟨id, "function", name, args⟩ :: buildToolCalls rest (i + 1)

/-- convert.ts `openAiToolCallsFromMessage` (lines 745-790): a structured
`toolCalls`/`tool_calls` array when non-empty, else `toolCall`-tagged
content items. -/
def openAiToolCallsFromMessage (message : JSValue) : List OpenAIToolCallOut :=
  let structuredCalls :=
    match jsGet message "toolCalls" with
    | .arr l => l
    | _ =>
      match jsGet message "tool_calls" with
      | .arr l => l
      | _ => []
  let contentCalls :=
    match jsGet message "content" with
    | .arr items => items.filter isToolCallItem
    | _ => []
  let source := if structuredCalls.length > 0 then structuredCalls else contentCalls
  buildToolCalls source 0

/-- The single-choice OpenAI non-streaming response; the constant fields
(`object:"chat.completion"`, `system_fingerprint`, `choices[0].index = 0`,
`logprobs:null`) are left implicit, and the one choice's message is
flattened into `content`/`tool_calls`. -/
structure OpenAIChatResponse where
  id : String
  created : Int
  model : String
  content : String
  tool_calls : List OpenAIToolCallOut
  finish_reason : String
  usage : OpenAIUsage
deriving DecidableEq

/-- convert.ts `assistantMessageToResponse` (lines 792-855); `created`
(`Date.now()`) is passed as a parameter. -/
def assistantMessageToResponse (message : JSValue) (requestedModelId completionId : String)
    (created : Int) : OpenAIChatResponse :=
  let record := if isObjectLike message then message else .obj []
  let text := assistantTextFromMessage record
  let toolCalls := openAiToolCallsFromMessage record
  let usage := jsNullish (jsGet record "usage") (.obj [])
  let promptTokens :=
    safeNumber [jsGet usage "prompt_tokens", jsGet usage "inputTokens", jsGet usage "input"] +
      safeNumber [jsGet usage "cacheReadTokens", jsGet usage "cacheRead"]
  let completionTokens :=
    safeNumber [jsGet usage "completion_tokens", jsGet usage "outputTokens", jsGet usage "output"]
  let reasoningTokens :=
    safeNumber [jsGet usage "reasoning_tokens", jsGet usage "reasoningTokens"]
  let cachedTokens :=
    safeNumber [jsGet usage "cached_tokens", jsGet usage "cacheReadTokens", jsGet usage "cacheRead"]
  { id := completionId
    created := created
    model := requestedModelId
    content := text
    tool_calls := toolCalls
    finish_reason :=
      if toolCalls.length > 0 then "tool_calls"
      else mapStopReason (jsNullish (jsGet record "stopReason") (jsGet record "reason"))
    usage :=
      { prompt_tokens := promptTokens
        completion_tokens := completionTokens
        total_tokens := promptTokens + completionTokens
        reasoning_tokens := reasoningTokens
        cached_tokens := cachedTokens } }

/-! Derived definitions used by the claim statements and witnesses. -/

/-- The upstream content index a toolcall event resolves to: the first of
`contentIndex`/`index`/`toolCallIndex` holding a number, defaulting to
`state.nextToolCallIndex` for `toolcall_start` (line 566) and to 0 for
`toolcall_delta` (line 598). -/
def toolcallContentIndex (event : JSValue) (state : StreamState) : Int :=
  if getEventType event = "toolcall_start" then
    (readNumber event ["contentIndex", "index", "toolCallIndex"]).getD state.nextToolCallIndex
  else (readNumber event ["contentIndex", "index", "toolCallIndex"]).getD 0

/-- Tool-call bookkeeping invariant: `nextToolCallIndex` counts the map
entries, the assigned OpenAI slots are exactly 0, 1, ..., n-1 in insertion
order, and no upstream content index occurs twice. -/
def StreamInv (state : StreamState) : Prop :=
  state.nextToolCallIndex = (state.toolCallIndexMap.length : Int) ∧
  state.toolCallIndexMap.map Prod.snd =
    (List.range state.toolCallIndexMap.length).map Int.ofNat ∧
  (state.toolCallIndexMap.map Prod.fst).Nodup

/-- A fetch oracle that always fails (never consulted on data-URI inputs). -/
def failingFetch : URLRec → FetchOutcome := fun _ => .failure "network unreachable"

/-- A fetch oracle returning a small successful PNG response. -/
def okPngFetch : URLRec → FetchOutcome :=
  fun _ => .success ⟨true, 200, some "image/png", some [[137, 80, 78, 71]], []⟩

/-- A fresh stream state for the concrete witnesses. -/
def demoState : StreamState := createStreamState "chatcmpl-demo" "model-x" 1700000000

/-- Three toolcall events over two distinct upstream content indices. -/
def demoToolcallEvents : List JSValue :=
  [.obj [("type", .str "toolcall_start"), ("contentIndex", .num 5)],
   .obj [("type", .str "toolcall_delta"), ("contentIndex", .num 5), ("delta", .str "x")],
   .obj [("type", .str "toolcall_start"), ("contentIndex", .num 2)]]

/-! Base64 facts feeding the data-URI idempotence claim. -/

theorem b64CharVal_b64Char : ∀ n, n < 64 → b64CharVal (b64Char n) = some n := by decide

theorem b64CharVal_pad : b64CharVal '=' = none := by decide

theorem b64IndexFrom_lt (l : List Char) :
    ∀ (i : Nat) (c : Char) (s : Nat), b64IndexFrom i l c = some s → s < i + l.length := by
  induction l with
  | nil => intro i c s h; simp [b64IndexFrom] at h
  | cons a rest ih =>
    intro i c s h
    unfold b64IndexFrom at h
    by_cases hac : (a == c) = true
    · simp [hac] at h
      simp [List.length_cons]
      omega
    · simp [hac] at h
      have := ih (i + 1) c s h
      simp [List.length_cons]
      omega

theorem b64CharVal_lt (c : Char) (s : Nat) (h : b64CharVal c = some s) : s < 64 := by
  have hl : b64Alphabet.length = 64 := rfl
  have := b64IndexFrom_lt b64Alphabet 0 c s h
  omega

theorem b64Sextets_lt (cs : List Char) : ∀ s ∈ b64Sextets cs, s < 64 := by
  intro s hs
  unfold b64Sextets at hs
  obtain ⟨c, _, hc⟩ := List.mem_filterMap.mp hs
  exact b64CharVal_lt c s hc

theorem b64DecodeSextets_lt :
    ∀ ss : List Nat, (∀ s ∈ ss, s < 64) → ∀ b ∈ b64DecodeSextets ss, b < 256
  | s1 :: s2 :: s3 :: s4 :: rest, h, b, hb => by
    have h1 := h s1 (by simp)
    have h2 := h s2 (by simp)
    have h3 := h s3 (by simp)
    have h4 := h s4 (by simp)
    simp only [b64DecodeSextets, List.mem_cons] at hb
    rcases hb with hb | hb | hb | hb
    · omega
    · omega
    · omega
    · exact b64DecodeSextets_lt rest (fun s hs => h s (by simp [hs])) b hb
  | [s1, s2, s3], h, b, hb => by
    have h1 := h s1 (by simp)
    have h2 := h s2 (by simp)
    have h3 := h s3 (by simp)
    simp only [b64DecodeSextets, List.mem_cons, List.not_mem_nil, or_false] at hb
    rcases hb with hb | hb <;> omega
  | [s1, s2], h, b, hb => by
    have h1 := h s1 (by simp)
    have h2 := h s2 (by simp)
    simp only [b64DecodeSextets, List.mem_cons, List.not_mem_nil, or_false] at hb
    omega
  | [s1], _, b, hb => by simp [b64DecodeSextets] at hb
  | [], _, b, hb => by simp [b64DecodeSextets] at hb

theorem b64_decode_encode (bs : List Nat) (h : ∀ b ∈ bs, b < 256) :
    b64Decode (b64EncodeBytes bs) = bs := by
  induction bs using b64EncodeBytes.induct with
  | case1 => rfl
  | case2 b1 =>
    have hb1 : b1 < 256 := h b1 (by simp)
    unfold b64Decode b64EncodeBytes b64Sextets
    rw [List.filterMap_cons, b64CharVal_b64Char (b1 / 4) (by omega)]
    rw [List.filterMap_cons, b64CharVal_b64Char (b1 % 4 * 16) (by omega)]
    rw [List.filterMap_cons, b64CharVal_pad]
    rw [List.filterMap_cons, b64CharVal_pad]
    simp [b64DecodeSextets]
    omega
  | case3 b1 b2 =>
    have hb1 : b1 < 256 := h b1 (by simp)
    have hb2 : b2 < 256 := h b2 (by simp)
    unfold b64Decode b64EncodeBytes b64Sextets
    rw [List.filterMap_cons, b64CharVal_b64Char (b1 / 4) (by omega)]
    rw [List.filterMap_cons, b64CharVal_b64Char (b1 % 4 * 16 + b2 / 16) (by omega)]
    rw [List.filterMap_cons, b64CharVal_b64Char (b2 % 16 * 4) (by omega)]
    rw [List.filterMap_cons, b64CharVal_pad]
    simp [b64DecodeSextets]
    constructor
    · omega
    · omega
  | case4 b1 b2 b3 rest ih =>
    have hb1 : b1 < 256 := h b1 (by simp)
    have hb2 : b2 < 256 := h b2 (by simp)
    have hb3 : b3 < 256 := h b3 (by simp)
    have hrest : ∀ b ∈ rest, b < 256 := fun b hb => h b (by simp [hb])
    unfold b64Decode b64EncodeBytes b64Sextets
    rw [List.filterMap_cons, b64CharVal_b64Char (b1 / 4) (by omega)]
    rw [List.filterMap_cons, b64CharVal_b64Char (b1 % 4 * 16 + b2 / 16) (by omega)]
    rw [List.filterMap_cons, b64CharVal_b64Char (b2 % 16 * 4 + b3 / 64) (by omega)]
    rw [List.filterMap_cons, b64CharVal_b64Char (b3 % 64) (by omega)]
    unfold b64DecodeSextets
    have ih2 := ih hrest
    unfold b64Decode b64Sextets at ih2
    simp only [List.cons.injEq]
    refine ⟨by omega, by omega, by omega, ih2⟩

theorem b64CharVal_ws (c : Char) (hc : c.isWhitespace = true) : b64CharVal c = none := by
  have : c = ' ' ∨ c = '\t' ∨ c = '\r' ∨ c = '\n' := by
    simp [Char.isWhitespace] at hc
    tauto
  rcases this with h | h | h | h <;> subst h <;> decide

theorem b64Sextets_dropWhile (cs : List Char) :
    b64Sextets (cs.dropWhile Char.isWhitespace) = b64Sextets cs := by
  induction cs with
  | nil => rfl
  | cons c rest ih =>
    by_cases hc : Char.isWhitespace c
    · rw [List.dropWhile_cons]
      simp only [hc, if_true]
      rw [ih]
      unfold b64Sextets
      rw [List.filterMap_cons, b64CharVal_ws c hc]
    · rw [List.dropWhile_cons]
      simp [hc]

theorem b64Sextets_reverse (cs : List Char) :
    b64Sextets cs.reverse = (b64Sextets cs).reverse :=
  List.filterMap_reverse _ _

theorem b64Sextets_trim (cs : List Char) :
    b64Sextets (trimChars cs) = b64Sextets cs := by
  unfold trimChars dropTrailingWhile
  rw [b64Sextets_reverse, b64Sextets_dropWhile, b64Sextets_reverse, List.reverse_reverse,
    b64Sextets_dropWhile]

theorem b64Decode_trim (cs : List Char) : b64Decode (trimChars cs) = b64Decode cs := by
  unfold b64Decode
  rw [b64Sextets_trim]


/-! Stream-machine helper lemmas: dispatch, per-branch state shapes, and
map lookup. -/

theorem getEventType_ne_empty (event : JSValue) (h : getEventType event ≠ "") :
    isObjectLike event = true := by
  cases event <;> simp [getEventType, isObjectLike, jsGet] at h ⊢

theorem step_not_object (event : JSValue) (state : StreamState)
    (h : isObjectLike event = false) : eventToSSEChunks event state = ([], state) := by
  unfold eventToSSEChunks
  simp [h]

theorem step_unknown (event : JSValue) (state : StreamState)
    (h : getEventType event ∉ (["start", "text_delta", "text_end", "toolcall_start",
      "toolcall_delta", "error", "done"] : List String)) :
    eventToSSEChunks event state = ([], state) := by
  simp only [List.mem_cons, List.not_mem_nil, or_false, not_or] at h
  obtain ⟨h1, h2, h3, h4, h5, h6, h7⟩ := h
  by_cases ho : isObjectLike event
  · unfold eventToSSEChunks
    rw [ho]
    simp [h1, h2, h3, h4, h5, h6, h7]
  · exact step_not_object event state (by simpa using ho)

theorem step_eq_start (event : JSValue) (state : StreamState)
    (ht : getEventType event = "start") :
    eventToSSEChunks event state = handleStart state := by
  have ho : isObjectLike event = true := getEventType_ne_empty event (by rw [ht]; decide)
  unfold eventToSSEChunks
  rw [ho, ht]
  simp

theorem step_eq_textDelta (event : JSValue) (state : StreamState)
    (ht : getEventType event = "text_delta") :
    eventToSSEChunks event state = handleTextDelta event state := by
  have ho : isObjectLike event = true := getEventType_ne_empty event (by rw [ht]; decide)
  unfold eventToSSEChunks
  rw [ho, ht]
  simp

theorem step_eq_textEnd (event : JSValue) (state : StreamState)
    (ht : getEventType event = "text_end") :
    eventToSSEChunks event state = handleTextEnd event state := by
  have ho : isObjectLike event = true := getEventType_ne_empty event (by rw [ht]; decide)
  unfold eventToSSEChunks
  rw [ho, ht]
  simp

theorem step_eq_toolcallStart (event : JSValue) (state : StreamState)
    (ht : getEventType event = "toolcall_start") :
    eventToSSEChunks event state = handleToolcallStart event state := by
  have ho : isObjectLike event = true := getEventType_ne_empty event (by rw [ht]; decide)
  unfold eventToSSEChunks
  rw [ho, ht]
  simp

theorem step_eq_toolcallDelta (event : JSValue) (state : StreamState)
    (ht : getEventType event = "toolcall_delta") :
    eventToSSEChunks event state = handleToolcallDelta event state := by
  have ho : isObjectLike event = true := getEventType_ne_empty event (by rw [ht]; decide)
  unfold eventToSSEChunks
  rw [ho, ht]
  simp

theorem step_eq_error (event : JSValue) (state : StreamState)
    (ht : getEventType event = "error") :
    eventToSSEChunks event state = handleError event state := by
  have ho : isObjectLike event = true := getEventType_ne_empty event (by rw [ht]; decide)
  unfold eventToSSEChunks
  rw [ho, ht]
  simp

theorem step_eq_done (event : JSValue) (state : StreamState)
    (ht : getEventType event = "done") :
    eventToSSEChunks event state = handleDone event state := by
  have ho : isObjectLike event = true := getEventType_ne_empty event (by rw [ht]; decide)
  unfold eventToSSEChunks
  rw [ho, ht]
  simp

theorem resolveToolCallSlot_of_some (state : StreamState) (ci idx : Int)
    (h : mapGet state.toolCallIndexMap ci = some idx) :
    resolveToolCallSlot state ci = (idx, state) := by
  unfold resolveToolCallSlot
  rw [h]

theorem resolveToolCallSlot_of_none (state : StreamState) (ci : Int)
    (h : mapGet state.toolCallIndexMap ci = none) :
    resolveToolCallSlot state ci =
      (state.nextToolCallIndex,
       { state with
          toolCallIndexMap := state.toolCallIndexMap ++ [(ci, state.nextToolCallIndex)]
          nextToolCallIndex := state.nextToolCallIndex + 1 }) := by
  unfold resolveToolCallSlot
  rw [h]

/-- `toChunk` reads only the three identity fields of the state. -/
theorem toChunk_congr (s1 s2 : StreamState) (delta : JSValue) (finishReason : Option String)
    (hid : s1.completionId = s2.completionId) (hcr : s1.created = s2.created)
    (hmo : s1.model = s2.model) :
    toChunk s1 delta finishReason = toChunk s2 delta finishReason := by
  unfold toChunk
  rw [hid, hcr, hmo]

theorem resolveToolCallSlot_frame (state : StreamState) (ci : Int) :
    (resolveToolCallSlot state ci).2.completionId = state.completionId ∧
    (resolveToolCallSlot state ci).2.created = state.created ∧
    (resolveToolCallSlot state ci).2.model = state.model ∧
    (resolveToolCallSlot state ci).2.textDeltaSeen = state.textDeltaSeen := by
  unfold resolveToolCallSlot
  cases h : mapGet state.toolCallIndexMap ci <;> simp

theorem handleTextDelta_frame (record : JSValue) (state : StreamState) :
    (handleTextDelta record state).2.toolCallIndexMap = state.toolCallIndexMap ∧
    (handleTextDelta record state).2.nextToolCallIndex = state.nextToolCallIndex ∧
    (handleTextDelta record state).2.completionId = state.completionId ∧
    (handleTextDelta record state).2.created = state.created ∧
    (handleTextDelta record state).2.model = state.model := by
  unfold handleTextDelta
  dsimp only
  split
  · exact ⟨rfl, rfl, rfl, rfl, rfl⟩
  · exact ⟨rfl, rfl, rfl, rfl, rfl⟩

theorem handleTextEnd_frame (record : JSValue) (state : StreamState) :
    (handleTextEnd record state).2.toolCallIndexMap = state.toolCallIndexMap ∧
    (handleTextEnd record state).2.nextToolCallIndex = state.nextToolCallIndex ∧
    (handleTextEnd record state).2.completionId = state.completionId ∧
    (handleTextEnd record state).2.created = state.created ∧
    (handleTextEnd record state).2.model = state.model := by
  unfold handleTextEnd
  dsimp only
  split
  · exact ⟨rfl, rfl, rfl, rfl, rfl⟩
  · exact ⟨rfl, rfl, rfl, rfl, rfl⟩

theorem handleDone_frame (record : JSValue) (state : StreamState) :
    (handleDone record state).2.toolCallIndexMap = state.toolCallIndexMap ∧
    (handleDone record state).2.nextToolCallIndex = state.nextToolCallIndex ∧
    (handleDone record state).2.completionId = state.completionId ∧
    (handleDone record state).2.created = state.created ∧
    (handleDone record state).2.model = state.model := by
  unfold handleDone
  dsimp only
  split
  · split
    · exact ⟨rfl, rfl, rfl, rfl, rfl⟩
    · exact ⟨rfl, rfl, rfl, rfl, rfl⟩
  · exact ⟨rfl, rfl, rfl, rfl, rfl⟩

theorem handleToolcallStart_state (record : JSValue) (state : StreamState) :
    (handleToolcallStart record state).2 =
      { (resolveToolCallSlot state
          ((readNumber record ["contentIndex", "index", "toolCallIndex"]).getD
            state.nextToolCallIndex)).2 with emittedAnyOutput := true } := rfl

theorem handleToolcallDelta_state (record : JSValue) (state : StreamState) :
    (handleToolcallDelta record state).2.toolCallIndexMap =
      (resolveToolCallSlot state
        ((readNumber record ["contentIndex", "index", "toolCallIndex"]).getD 0)).2.toolCallIndexMap ∧
    (handleToolcallDelta record state).2.nextToolCallIndex =
      (resolveToolCallSlot state
        ((readNumber record ["contentIndex", "index", "toolCallIndex"]).getD 0)).2.nextToolCallIndex ∧
    (handleToolcallDelta record state).2.completionId = state.completionId ∧
    (handleToolcallDelta record state).2.created = state.created ∧
    (handleToolcallDelta record state).2.model = state.model := by
  obtain ⟨hid, hcr, hmo, _⟩ := resolveToolCallSlot_frame state
    ((readNumber record ["contentIndex", "index", "toolCallIndex"]).getD 0)
  unfold handleToolcallDelta
  dsimp only
  split
  · exact ⟨rfl, rfl, hid, hcr, hmo⟩
  · exact ⟨rfl, rfl, hid, hcr, hmo⟩

theorem mapGet_append_of_some (m : List (Int × Int)) (k v : Int) (ext : List (Int × Int))
    (h : mapGet m k = some v) : mapGet (m ++ ext) k = some v := by
  unfold mapGet at h ⊢
  rw [List.find?_append]
  cases hf : m.find? (fun kv => kv.1 == k) with
  | some kv => rw [hf] at h; simpa [Option.or] using h
  | none => rw [hf] at h; simp at h

theorem mapGet_append_self (m : List (Int × Int)) (k v : Int)
    (h : mapGet m k = none) : mapGet (m ++ [(k, v)]) k = some v := by
  unfold mapGet at h ⊢
  rw [List.find?_append]
  cases hf : m.find? (fun kv => kv.1 == k) with
  | some kv => rw [hf] at h; simp at h
  | none => simp [Option.or, List.find?]

theorem mapGet_none_not_mem (m : List (Int × Int)) (k : Int)
    (h : mapGet m k = none) : k ∉ m.map Prod.fst := by
  unfold mapGet at h
  intro hk
  obtain ⟨kv, hkv, hfst⟩ := List.mem_map.mp hk
  cases hf : m.find? (fun kv => kv.1 == k) with
  | some kv2 => rw [hf] at h; simp at h
  | none =>
    have := List.find?_eq_none.mp hf kv hkv
    simp [hfst] at this

/-- Every branch either leaves `toolCallIndexMap`/`nextToolCallIndex` alone
or appends one binding for a fresh upstream index to the next slot. -/
theorem step_map_shape (event : JSValue) (state : StreamState) :
    ((eventToSSEChunks event state).2.toolCallIndexMap = state.toolCallIndexMap ∧
     (eventToSSEChunks event state).2.nextToolCallIndex = state.nextToolCallIndex) ∨
    (∃ ci, mapGet state.toolCallIndexMap ci = none ∧
      (eventToSSEChunks event state).2.toolCallIndexMap =
        state.toolCallIndexMap ++ [(ci, state.nextToolCallIndex)] ∧
      (eventToSSEChunks event state).2.nextToolCallIndex = state.nextToolCallIndex + 1) := by
  by_cases ho : isObjectLike event
  case neg => rw [step_not_object event state (by simpa using ho)]; exact Or.inl ⟨rfl, rfl⟩
  by_cases h1 : getEventType event = "start"
  case pos => rw [step_eq_start event state h1]; exact Or.inl ⟨rfl, rfl⟩
  by_cases h2 : getEventType event = "text_delta"
  case pos =>
    rw [step_eq_textDelta event state h2]
    exact Or.inl ⟨(handleTextDelta_frame event state).1, (handleTextDelta_frame event state).2.1⟩
  by_cases h3 : getEventType event = "text_end"
  case pos =>
    rw [step_eq_textEnd event state h3]
    exact Or.inl ⟨(handleTextEnd_frame event state).1, (handleTextEnd_frame event state).2.1⟩
  by_cases h4 : getEventType event = "toolcall_start"
  case pos =>
    rw [step_eq_toolcallStart event state h4, handleToolcallStart_state]
    cases hm : mapGet state.toolCallIndexMap
        ((readNumber event ["contentIndex", "index", "toolCallIndex"]).getD
          state.nextToolCallIndex) with
    | some idx => rw [resolveToolCallSlot_of_some state _ idx hm]; exact Or.inl ⟨rfl, rfl⟩
    | none => rw [resolveToolCallSlot_of_none state _ hm]; exact Or.inr ⟨_, hm, rfl, rfl⟩
  by_cases h5 : getEventType event = "toolcall_delta"
  case pos =>
    rw [step_eq_toolcallDelta event state h5]
    obtain ⟨hmap, hnext, _⟩ := handleToolcallDelta_state event state
    rw [hmap, hnext]
    cases hm : mapGet state.toolCallIndexMap
        ((readNumber event ["contentIndex", "index", "toolCallIndex"]).getD 0) with
    | some idx => rw [resolveToolCallSlot_of_some state _ idx hm]; exact Or.inl ⟨rfl, rfl⟩
    | none => rw [resolveToolCallSlot_of_none state _ hm]; exact Or.inr ⟨_, hm, rfl, rfl⟩
  by_cases h6 : getEventType event = "error"
  case pos => rw [step_eq_error event state h6]; exact Or.inl ⟨rfl, rfl⟩
  by_cases h7 : getEventType event = "done"
  case pos =>
    rw [step_eq_done event state h7]
    exact Or.inl ⟨(handleDone_frame event state).1, (handleDone_frame event state).2.1⟩
  rw [step_unknown event state (by simp [h1, h2, h3, h4, h5, h6, h7])]
  exact Or.inl ⟨rfl, rfl⟩

/-- One step preserves the tool-call invariant, keeps every existing
binding, and only ever appends to the map. -/
theorem step_inv (event : JSValue) (state : StreamState) (h : StreamInv state) :
    StreamInv (eventToSSEChunks event state).2 ∧
    (∀ ci slot, mapGet state.toolCallIndexMap ci = some slot →
      mapGet (eventToSSEChunks event state).2.toolCallIndexMap ci = some slot) ∧
    (∃ ext, (eventToSSEChunks event state).2.toolCallIndexMap =
      state.toolCallIndexMap ++ ext) := by
  rcases step_map_shape event state with ⟨hm, hn⟩ | ⟨ci, hci, hm, hn⟩
  · refine ⟨?_, ?_, ⟨[], by simp [hm]⟩⟩
    · unfold StreamInv at h ⊢
      rw [hm, hn]
      exact h
    · intro ci slot hs
      rw [hm]
      exact hs
  · obtain ⟨hlen, hslots, hkeys⟩ := h
    refine ⟨⟨?_, ?_, ?_⟩, ?_, ⟨_, hm⟩⟩
    · rw [hm, hn, List.length_append, hlen]
      simp
    · rw [hm, List.map_append, hslots, List.length_append]
      simp only [List.map_cons, List.map_nil, List.length_cons, List.length_nil]
      rw [List.range_succ, List.map_append]
      simp [hlen]
    · rw [hm, List.map_append]
      simp only [List.map_cons, List.map_nil]
      rw [List.nodup_append]
      refine ⟨hkeys, List.nodup_singleton _, ?_⟩
      intro a ha
      simp only [List.mem_singleton]
      intro hac
      subst hac
      exact mapGet_none_not_mem _ _ hci ha
    · intro k slot hs
      rw [hm]
      exact mapGet_append_of_some _ _ _ _ hs

/-- The fold preserves the invariant and every existing binding. -/
theorem processEvents_inv (events : List JSValue) (state : StreamState) (h : StreamInv state) :
    StreamInv (processEvents events state).2 ∧
    (∀ ci slot, mapGet state.toolCallIndexMap ci = some slot →
      mapGet (processEvents events state).2.toolCallIndexMap ci = some slot) ∧
    (∃ ext, (processEvents events state).2.toolCallIndexMap =
      state.toolCallIndexMap ++ ext) := by
  induction events generalizing state with
  | nil => exact ⟨h, fun ci slot hs => hs, ⟨[], by simp [processEvents]⟩⟩
  | cons e rest ih =>
    have hstep := step_inv e state h
    have hrest := ih (eventToSSEChunks e state).2 hstep.1
    unfold processEvents
    dsimp only
    refine ⟨hrest.1, ?_, ?_⟩
    · intro ci slot hs
      exact hrest.2.1 ci slot (hstep.2.1 ci slot hs)
    · obtain ⟨e1, he1⟩ := hstep.2.2
      obtain ⟨e2, he2⟩ := hrest.2.2
      exact ⟨e1 ++ e2, by rw [he2, he1, List.append_assoc]⟩

/-- A toolcall event's resolved content index gets the next slot when fresh
and keeps its old slot (with no other change) when already mapped. -/
theorem step_alloc (event : JSValue) (state : StreamState)
    (ht : getEventType event = "toolcall_start" ∨ getEventType event = "toolcall_delta") :
    (mapGet state.toolCallIndexMap (toolcallContentIndex event state) = none →
      mapGet (eventToSSEChunks event state).2.toolCallIndexMap
        (toolcallContentIndex event state) = some state.nextToolCallIndex ∧
      (eventToSSEChunks event state).2.nextToolCallIndex = state.nextToolCallIndex + 1) ∧
    (∀ slot, mapGet state.toolCallIndexMap (toolcallContentIndex event state) = some slot →
      (eventToSSEChunks event state).2.toolCallIndexMap = state.toolCallIndexMap ∧
      (eventToSSEChunks event state).2.nextToolCallIndex = state.nextToolCallIndex) := by
  rcases ht with ht | ht
  · rw [step_eq_toolcallStart event state ht, handleToolcallStart_state]
    unfold toolcallContentIndex
    rw [if_pos ht]
    constructor
    · intro hnone
      rw [resolveToolCallSlot_of_none state _ hnone]
      exact ⟨mapGet_append_self _ _ _ hnone, rfl⟩
    · intro slot hs
      rw [resolveToolCallSlot_of_some state _ slot hs]
      exact ⟨rfl, rfl⟩
  · rw [step_eq_toolcallDelta event state ht]
    unfold toolcallContentIndex
    rw [if_neg (by rw [ht]; decide)]
    obtain ⟨hmap, hnext, _⟩ := handleToolcallDelta_state event state
    rw [hmap, hnext]
    constructor
    · intro hnone
      rw [resolveToolCallSlot_of_none state _ hnone]
      exact ⟨mapGet_append_self _ _ _ hnone, rfl⟩
    · intro slot hs
      rw [resolveToolCallSlot_of_some state _ slot hs]
      exact ⟨rfl, rfl⟩

/-- C1: processing any upstream event sequence against one StreamState keeps
the tool-call slot map append-only with pairwise-distinct, strictly
increasing slots 0..n-1 (so N distinct upstream content indices get N
distinct monotonically increasing slots), never reassigns an existing
upstream index (every binding persists to every later state, making slot
lookups stable across repeated delta events), and each toolcall event's
resolved content index is assigned exactly once: a fresh index gets the next
monotonically increasing slot while an already-mapped index leaves the map
and counter untouched. -/
theorem c1_toolcall_slot_assignment :
    (∀ (events : List JSValue) (state : StreamState), StreamInv state →
      StreamInv (processEvents events state).2 ∧
      (∀ ci slot, mapGet state.toolCallIndexMap ci = some slot →
        mapGet (processEvents events state).2.toolCallIndexMap ci = some slot) ∧
      (∃ ext, (processEvents events state).2.toolCallIndexMap =
        state.toolCallIndexMap ++ ext) ∧
      ((processEvents events state).2.toolCallIndexMap.map Prod.snd).Pairwise (· < ·) ∧
      ((processEvents events state).2.toolCallIndexMap.map Prod.fst).Nodup) ∧
    (∀ (event : JSValue) (state : StreamState),
      getEventType event = "toolcall_start" ∨ getEventType event = "toolcall_delta" →
      (mapGet state.toolCallIndexMap (toolcallContentIndex event state) = none →
        mapGet (eventToSSEChunks event state).2.toolCallIndexMap
          (toolcallContentIndex event state) = some state.nextToolCallIndex ∧
        (eventToSSEChunks event state).2.nextToolCallIndex = state.nextToolCallIndex + 1) ∧
      (∀ slot, mapGet state.toolCallIndexMap (toolcallContentIndex event state) = some slot →
        (eventToSSEChunks event state).2.toolCallIndexMap = state.toolCallIndexMap ∧
        (eventToSSEChunks event state).2.nextToolCallIndex = state.nextToolCallIndex)) := by
  constructor
  · intro events state h
    obtain ⟨hinv, hpersist, hext⟩ := processEvents_inv events state h
    refine ⟨hinv, hpersist, hext, ?_, hinv.2.2⟩
    rw [hinv.2.1]
    exact (List.pairwise_lt_range _).map Int.ofNat (fun a b hab => Int.ofNat_lt.mpr hab)
  · exact step_alloc

/-- Concrete instantiation of `c1_toolcall_slot_assignment`: a fresh stream
state run over three toolcall events touching upstream indices 5, 5, 2. -/
theorem c1_toolcall_slot_assignment_witness :
    StreamInv demoState ∧ StreamInv (processEvents demoToolcallEvents demoState).2 :=
  ⟨by unfold StreamInv; decide,
   ((c1_toolcall_slot_assignment.1 demoToolcallEvents demoState (by unfold StreamInv; decide)).1)⟩

/-- C3: mapStopReason sends tool_calls/tool_call/toolUse/tool_use to
"tool_calls", max_tokens/length to "length",
content_filter/error/aborted to "content_filter", and every other value —
any string outside the nine and every non-string — to "stop". -/
theorem c3_mapStopReason_exact :
    mapStopReason (.str "tool_calls") = "tool_calls" ∧
    mapStopReason (.str "tool_call") = "tool_calls" ∧
    mapStopReason (.str "toolUse") = "tool_calls" ∧
    mapStopReason (.str "tool_use") = "tool_calls" ∧
    mapStopReason (.str "max_tokens") = "length" ∧
    mapStopReason (.str "length") = "length" ∧
    mapStopReason (.str "content_filter") = "content_filter" ∧
    mapStopReason (.str "error") = "content_filter" ∧
    mapStopReason (.str "aborted") = "content_filter" ∧
    (∀ v : JSValue,
      jsStrEq v "tool_calls" = false → jsStrEq v "tool_call" = false →
      jsStrEq v "toolUse" = false → jsStrEq v "tool_use" = false →
      jsStrEq v "max_tokens" = false → jsStrEq v "length" = false →
      jsStrEq v "content_filter" = false → jsStrEq v "error" = false →
      jsStrEq v "aborted" = false → mapStopReason v = "stop") ∧
    (∀ v : JSValue, (∀ s, v ≠ .str s) → mapStopReason v = "stop") := by
  refine ⟨rfl, rfl, rfl, rfl, rfl, rfl, rfl, rfl, rfl, ?_, ?_⟩
  · intro v h1 h2 h3 h4 h5 h6 h7 h8 h9
    unfold mapStopReason
    simp [h1, h2, h3, h4, h5, h6, h7, h8, h9]
  · intro v hv
    have hne : ∀ s : String, jsStrEq v s = false := by
      intro s
      cases v <;> simp [jsStrEq]
      exact fun h => absurd (by rw [h]) (hv _)
    unfold mapStopReason
    simp [hne]

/-- Concrete instantiation of `c3_mapStopReason_exact`: a numeric stop
signal maps to "stop". -/
theorem c3_mapStopReason_exact_witness : mapStopReason (.num 7) = "stop" :=
  c3_mapStopReason_exact.2.2.2.2.2.2.2.2.2.1 (.num 7) rfl rfl rfl rfl rfl rfl rfl rfl rfl

/-- C9: an event that is not a JS object, or whose resolved event type is
none of start/text_delta/text_end/toolcall_start/toolcall_delta/error/done,
yields no chunks and leaves the StreamState unchanged in every field. -/
theorem c9_unknown_event_ignored (event : JSValue) (state : StreamState)
    (h : isObjectLike event = false ∨
      getEventType event ∉ (["start", "text_delta", "text_end", "toolcall_start",
        "toolcall_delta", "error", "done"] : List String)) :
    eventToSSEChunks event state = ([], state) := by
  rcases h with h | h
  · exact step_not_object event state h
  · exact step_unknown event state h

/-- Concrete instantiation of `c9_unknown_event_ignored`: a string event and
an object event of unknown type both leave the state alone. -/
theorem c9_unknown_event_ignored_witness :
    eventToSSEChunks (.str "ping") demoState = ([], demoState) ∧
    eventToSSEChunks (.obj [("type", .str "mystery")]) demoState = ([], demoState) :=
  ⟨c9_unknown_event_ignored (.str "ping") demoState (Or.inl rfl),
   c9_unknown_event_ignored (.obj [("type", .str "mystery")]) demoState (Or.inr (by decide))⟩

/-- C2: for a text_end event, exactly one content-delta chunk (carrying the
event's full text) is emitted when the text is non-empty and the content
index has seen no prior text_delta; otherwise the event emits nothing — so
at most one emission path wins per content index. -/
theorem c2_text_end_single_emission (event : JSValue) (state : StreamState)
    (ht : getEventType event = "text_end") :
    (readString event ["content", "text", "delta"] ≠ "" ∧
        (readNumber event ["contentIndex", "index"]).getD 0 ∉ state.textDeltaSeen →
      (eventToSSEChunks event state).1 =
        [formatSSEDataLine (toChunk state
          (.obj [("content", .str (readString event ["content", "text", "delta"]))]) none)]) ∧
    ((readString event ["content", "text", "delta"] = "" ∨
        (readNumber event ["contentIndex", "index"]).getD 0 ∈ state.textDeltaSeen) →
      (eventToSSEChunks event state).1 = []) := by
  rw [step_eq_textEnd event state ht]
  unfold handleTextEnd
  dsimp only
  constructor
  · intro hc
    rw [if_pos hc]
    rfl
  · intro hc
    rw [if_neg (by tauto)]

/-- Concrete instantiation of `c2_text_end_single_emission`: a text_end with
full text "hi" on a fresh index emits exactly one content chunk. -/
theorem c2_text_end_single_emission_witness :
    (eventToSSEChunks (.obj [("type", .str "text_end"), ("content", .str "hi")]) demoState).1 =
      [formatSSEDataLine (toChunk demoState (.obj [("content", .str "hi")]) none)] :=
  (c2_text_end_single_emission (.obj [("type", .str "text_end"), ("content", .str "hi")])
    demoState rfl).1 (by decide)

/-- C10: every chunk a start/text_delta/text_end/toolcall_start/
toolcall_delta/done event emits is "data: " followed by the JSON of a
`toChunk` payload built from the state, whose id/object/created/model are
the state's completionId, "chat.completion.chunk", created and model and
which carries exactly one choice with index 0; and no event ever changes
completionId, created or model, so all chunks of one stream share them. -/
theorem c10_chunk_shape :
    (∀ (event : JSValue) (state : StreamState),
      getEventType event ∈ (["start", "text_delta", "text_end", "toolcall_start",
        "toolcall_delta", "done"] : List String) →
      ∀ chunk ∈ (eventToSSEChunks event state).1,
        ∃ delta finishReason, chunk = formatSSEDataLine (toChunk state delta finishReason)) ∧
    (∀ (state : StreamState) (delta : JSValue) (finishReason : Option String),
      jsGet (toChunk state delta finishReason) "id" = .str state.completionId ∧
      jsGet (toChunk state delta finishReason) "object" = .str "chat.completion.chunk" ∧
      jsGet (toChunk state delta finishReason) "created" = .num state.created ∧
      jsGet (toChunk state delta finishReason) "model" = .str state.model ∧
      ∃ choice, jsGet (toChunk state delta finishReason) "choices" = .arr [choice] ∧
        jsGet choice "index" = .num 0) ∧
    (∀ payload, formatSSEDataLine payload = "data: " ++ stringifyVal payload ++ "\n\n") ∧
    (∀ (event : JSValue) (state : StreamState),
      (eventToSSEChunks event state).2.completionId = state.completionId ∧
      (eventToSSEChunks event state).2.created = state.created ∧
      (eventToSSEChunks event state).2.model = state.model) := by
  refine ⟨?_, ?_, fun _ => rfl, ?_⟩
  · intro event state hmem chunk hc
    simp only [List.mem_cons, List.not_mem_nil, or_false] at hmem
    rcases hmem with ht | ht | ht | ht | ht | ht
    · rw [step_eq_start event state ht] at hc
      simp only [handleStart, List.mem_singleton] at hc
      exact ⟨_, none, hc⟩
    · rw [step_eq_textDelta event state ht] at hc
      unfold handleTextDelta at hc
      dsimp only at hc
      by_cases hd : readString event ["delta", "text", "content"] ≠ ""
      · rw [if_pos hd] at hc
        simp only [List.mem_singleton] at hc
        exact ⟨_, none, hc⟩
      · rw [if_neg hd] at hc
        simp at hc
    · rw [step_eq_textEnd event state ht] at hc
      unfold handleTextEnd at hc
      dsimp only at hc
      by_cases hd : readString event ["content", "text", "delta"] ≠ "" ∧
          (readNumber event ["contentIndex", "index"]).getD 0 ∉ state.textDeltaSeen
      · rw [if_pos hd] at hc
        simp only [List.mem_singleton] at hc
        exact ⟨_, none, hc⟩
      · rw [if_neg hd] at hc
        simp at hc
    · rw [step_eq_toolcallStart event state ht] at hc
      unfold handleToolcallStart at hc
      dsimp only at hc
      simp only [List.mem_singleton] at hc
      obtain ⟨hid, hcr, hmo, _⟩ := resolveToolCallSlot_frame state
        ((readNumber event ["contentIndex", "index", "toolCallIndex"]).getD
          state.nextToolCallIndex)
      exact ⟨_, none,
        hc.trans (congrArg formatSSEDataLine (toChunk_congr _ state _ none hid hcr hmo))⟩
    · rw [step_eq_toolcallDelta event state ht] at hc
      unfold handleToolcallDelta at hc
      dsimp only at hc
      obtain ⟨hid, hcr, hmo, _⟩ := resolveToolCallSlot_frame state
        ((readNumber event ["contentIndex", "index", "toolCallIndex"]).getD 0)
      split at hc
      · simp only [List.mem_singleton] at hc
        exact ⟨_, none,
          hc.trans (congrArg formatSSEDataLine (toChunk_congr _ state _ none hid hcr hmo))⟩
      · simp at hc
    · rw [step_eq_done event state ht] at hc
      unfold handleDone at hc
      dsimp only at hc
      split at hc
      · split at hc
        · simp only [List.mem_singleton] at hc
          exact ⟨_, some _, hc⟩
        · simp only [List.mem_singleton] at hc
          exact ⟨_, some _, hc⟩
      · simp only [List.mem_singleton] at hc
        exact ⟨_, some _, hc⟩
  · intro state delta finishReason
    exact ⟨rfl, rfl, rfl, rfl, _, rfl, rfl⟩
  · intro event state
    by_cases ho : isObjectLike event
    case neg => rw [step_not_object event state (by simpa using ho)]; exact ⟨rfl, rfl, rfl⟩
    by_cases h1 : getEventType event = "start"
    case pos => rw [step_eq_start event state h1]; exact ⟨rfl, rfl, rfl⟩
    by_cases h2 : getEventType event = "text_delta"
    case pos =>
      rw [step_eq_textDelta event state h2]
      obtain ⟨_, _, ha, hb, hcm⟩ := handleTextDelta_frame event state
      exact ⟨ha, hb, hcm⟩
    by_cases h3 : getEventType event = "text_end"
    case pos =>
      rw [step_eq_textEnd event state h3]
      obtain ⟨_, _, ha, hb, hcm⟩ := handleTextEnd_frame event state
      exact ⟨ha, hb, hcm⟩
    by_cases h4 : getEventType event = "toolcall_start"
    case pos =>
      rw [step_eq_toolcallStart event state h4, handleToolcallStart_state]
      obtain ⟨hid, hcr, hmo, _⟩ := resolveToolCallSlot_frame state
        ((readNumber event ["contentIndex", "index", "toolCallIndex"]).getD
          state.nextToolCallIndex)
      exact ⟨hid, hcr, hmo⟩
    by_cases h5 : getEventType event = "toolcall_delta"
    case pos =>
      rw [step_eq_toolcallDelta event state h5]
      obtain ⟨_, _, ha, hb, hcm⟩ := handleToolcallDelta_state event state
      exact ⟨ha, hb, hcm⟩
    by_cases h6 : getEventType event = "error"
    case pos => rw [step_eq_error event state h6]; exact ⟨rfl, rfl, rfl⟩
    by_cases h7 : getEventType event = "done"
    case pos =>
      rw [step_eq_done event state h7]
      obtain ⟨_, _, ha, hb, hcm⟩ := handleDone_frame event state
      exact ⟨ha, hb, hcm⟩
    rw [step_unknown event state (by simp [h1, h2, h3, h4, h5, h6, h7])]
    exact ⟨rfl, rfl, rfl⟩

/-- Concrete instantiation of `c10_chunk_shape`: the single chunk of a start
event on a fresh state is a `toChunk` payload of that state. -/
theorem c10_chunk_shape_witness :
    ∃ delta finishReason,
      formatSSEDataLine (toChunk demoState (.obj [("role", .str "assistant")]) none) =
        formatSSEDataLine (toChunk demoState delta finishReason) :=
  c10_chunk_shape.1 (.obj [("type", .str "start")]) demoState (by decide)
    (formatSSEDataLine (toChunk demoState (.obj [("role", .str "assistant")]) none))
    (by rw [step_eq_start (.obj [("type", .str "start")]) demoState (by decide)]
        exact List.mem_singleton.mpr rfl)

/-! Byte-cap lemmas for the remote body reader. -/

theorem readChunksLimited_ok (chunks : List (List Nat)) (maxBytes : Nat) :
    ∀ (totalBytes : Nat) (bufs : List (List Nat)),
      readChunksLimited chunks maxBytes totalBytes = .ok bufs →
      bufs = chunks ∧
        (chunks = [] ∨ totalBytes + (chunks.map List.length).sum ≤ maxBytes) := by
  induction chunks with
  | nil =>
    intro totalBytes bufs h
    unfold readChunksLimited at h
    simp at h
    subst h
    exact ⟨rfl, Or.inl rfl⟩
  | cons c rest ih =>
    intro totalBytes bufs h
    unfold readChunksLimited at h
    dsimp only at h
    by_cases hgt : totalBytes + c.length > maxBytes
    · rw [if_pos hgt] at h
      simp at h
    · rw [if_neg hgt] at h
      cases hr : readChunksLimited rest maxBytes (totalBytes + c.length) with
      | ok bufs2 =>
        rw [hr] at h
        simp at h
        obtain ⟨hb, hsum⟩ := ih _ _ hr
        subst h
        refine ⟨by rw [hb], Or.inr ?_⟩
        rcases hsum with hrest | hle
        · subst hrest
          simp only [List.map_cons, List.map_nil, List.sum_cons, List.sum_nil]
          omega
        · simp only [List.map_cons, List.sum_cons]
          omega
      | error e =>
        rw [hr] at h
        simp at h

theorem readChunksLimited_overflow (c : List Nat) (maxBytes : Nat) :
    ∀ (pre : List (List Nat)) (totalBytes : Nat),
      totalBytes + (pre.map List.length).sum ≤ maxBytes →
      totalBytes + (pre.map List.length).sum + c.length > maxBytes →
      ∀ post, readChunksLimited (pre ++ c :: post) maxBytes totalBytes =
        .error (.notSupported ("Remote image exceeds " ++ toString maxBytes ++ " bytes."))
  | [], totalBytes, _, hover, post => by
    show readChunksLimited (c :: post) maxBytes totalBytes = _
    unfold readChunksLimited
    dsimp only
    rw [if_pos (by simp at hover ⊢; omega)]
  | p :: pre, totalBytes, hpre, hover, post => by
    have hple : ¬ totalBytes + p.length > maxBytes := by
      simp only [List.map_cons, List.sum_cons] at hpre
      omega
    have hrec := readChunksLimited_overflow c maxBytes pre (totalBytes + p.length)
      (by simp only [List.map_cons, List.sum_cons] at hpre; omega)
      (by simp only [List.map_cons, List.sum_cons] at hover; omega) post
    show readChunksLimited (p :: (pre ++ c :: post)) maxBytes totalBytes = _
    unfold readChunksLimited
    dsimp only
    rw [if_neg hple, hrec]

/-- C6: the chunked body reader fails at the first chunk that pushes the
running byte total over the cap — with the same error no matter what chunks
would have followed, i.e. they are never consumed — and whenever
readResponseBodyLimited returns a buffer, its length is at most the cap. -/
theorem c6_body_byte_cap :
    (∀ (pre : List (List Nat)) (c : List Nat) (post post2 : List (List Nat)) (maxBytes : Nat),
      (pre.map List.length).sum ≤ maxBytes →
      (pre.map List.length).sum + c.length > maxBytes →
      readChunksLimited (pre ++ c :: post) maxBytes 0 =
        .error (.notSupported ("Remote image exceeds " ++ toString maxBytes ++ " bytes.")) ∧
      readChunksLimited (pre ++ c :: post) maxBytes 0 =
        readChunksLimited (pre ++ c :: post2) maxBytes 0) ∧
    (∀ (response : FetchResponse) (maxBytes : Nat) (buffer : List Nat),
      readResponseBodyLimited response maxBytes = .ok buffer → buffer.length ≤ maxBytes) := by
  constructor
  · intro pre c post post2 maxBytes hpre hover
    have h1 := readChunksLimited_overflow c maxBytes pre 0 (by simpa using hpre)
      (by simpa using hover) post
    have h2 := readChunksLimited_overflow c maxBytes pre 0 (by simpa using hpre)
      (by simpa using hover) post2
    exact ⟨h1, h1.trans h2.symm⟩
  · intro response maxBytes buffer h
    unfold readResponseBodyLimited at h
    cases hb : response.bodyChunks with
    | none =>
      rw [hb] at h
      dsimp only at h
      by_cases hlen : response.fullBody.length > maxBytes
      · rw [if_pos hlen] at h
        simp at h
      · rw [if_neg hlen] at h
        simp at h
        subst h
        omega
    | some chunks =>
      rw [hb] at h
      dsimp only at h
      cases hr : readChunksLimited chunks maxBytes 0 with
      | ok bufs =>
        rw [hr] at h
        simp at h
        obtain ⟨hbufs, hsum⟩ := readChunksLimited_ok chunks maxBytes 0 bufs hr
        subst h
        rw [List.length_flatten, hbufs]
        rcases hsum with hnil | hle
        · subst hnil
          simp
        · omega
      | error e =>
        rw [hr] at h
        simp at h

/-- Concrete instantiation of `c6_body_byte_cap`: with cap 3, chunks
[1,2] then [3,4,5] fail at the second chunk regardless of what follows,
and a within-cap body is returned whole. -/
theorem c6_body_byte_cap_witness :
    (readChunksLimited [[1, 2], [3, 4, 5]] 3 0 =
        .error (.notSupported ("Remote image exceeds " ++ toString 3 ++ " bytes.")) ∧
      readChunksLimited [[1, 2], [3, 4, 5]] 3 0 =
        readChunksLimited [[1, 2], [3, 4, 5], [9]] 3 0) ∧
    List.length [1, 2] ≤ 10 :=
  ⟨c6_body_byte_cap.1 [[1, 2]] [3, 4, 5] [] [[9]] 3 (by decide) (by decide),
   c6_body_byte_cap.2 ⟨true, 200, none, some [[1, 2]], []⟩ 10 [1, 2] rfl⟩

/-- C7 counterexample: for the terminal usage record
⦃input: 1, output: 2, totalTokens: 100⦄ the streaming done handler stores
total_tokens = 100 (the explicit upstream total) while the non-streaming
assembler computes total_tokens = 3 (prompt + completion, ignoring the
explicit total), so the two directions do not both report the explicit
upstream total. -/
theorem c7_total_tokens_counterexample :
    (eventToSSEChunks (.obj [("type", .str "done"),
        ("message", .obj [("usage", .obj [("input", .num 1), ("output", .num 2),
          ("totalTokens", .num 100)])])]) demoState).2.streamUsage =
      some ⟨1, 2, 100, 0, 0⟩ ∧
    (assistantMessageToResponse (.obj [("usage", .obj [("input", .num 1), ("output", .num 2),
        ("totalTokens", .num 100)])]) "model-x" "chatcmpl-demo" 0).usage.total_tokens = 3 ∧
    (100 : Int) ≠ 3 :=
  ⟨rfl, rfl, by decide⟩

/-- C7 amended: for a terminal message carrying canonical usage fields, both
the streaming done handler and the non-streaming assembler compute
prompt_tokens = input + cache-read and completion_tokens = output; the done
handler computes total_tokens as the explicit upstream total when present
and nonzero, else prompt + completion; the assembler always computes
total_tokens = prompt_tokens + completion_tokens, ignoring the explicit
total. -/
theorem c7_usage_normalization (inp outp cr tt : Int) (state : StreamState)
    (requestedModelId completionId : String) (created : Int) :
    streamUsageOf (.obj [("input", .num inp), ("output", .num outp),
        ("cacheRead", .num cr), ("totalTokens", .num tt)]) =
      ⟨inp + cr, outp, if tt = 0 then inp + cr + outp else tt, 0, cr⟩ ∧
    (eventToSSEChunks (.obj [("type", .str "done"),
        ("message", .obj [("usage", .obj [("input", .num inp), ("output", .num outp),
          ("cacheRead", .num cr), ("totalTokens", .num tt)])])]) state).2.streamUsage =
      some (streamUsageOf (.obj [("input", .num inp), ("output", .num outp),
        ("cacheRead", .num cr), ("totalTokens", .num tt)])) ∧
    (assistantMessageToResponse (.obj [("usage", .obj [("input", .num inp),
        ("output", .num outp), ("cacheRead", .num cr), ("totalTokens", .num tt)])])
        requestedModelId completionId created).usage =
      ⟨inp + cr, outp, (inp + cr) + outp, 0, cr⟩ :=
  ⟨rfl, rfl, rfl⟩

/-- `parseDataUrl` on a base64-flagged png data URI with arbitrary payload:
the metadata is fixed, so the whole parse reduces to the payload branch. -/
theorem parseDataUrl_b64_png (p : String) :
    parseDataUrl ("data:image/png;base64," ++ p) =
      (if (trimChars p.data).length = 0 then
        Except.error (.notSupported "image_url data URI is empty.")
       else .ok ⟨"image/png", (b64EncodeBytes (b64Decode (trimChars p.data))).asString⟩) := rfl

/-- C8: on every base64-flagged image data URI with non-blank payload,
parseDataUrl succeeds and passes the payload through Node's
decode-then-re-encode; the re-encoded payload decodes to exactly the bytes
of the original payload, so the round trip is idempotent on the decoded
bytes. -/
theorem c8_base64_roundtrip (p : String) (hp : trimChars p.data ≠ []) :
    parseDataUrl ("data:image/png;base64," ++ p) =
      .ok ⟨"image/png", (b64EncodeBytes (b64Decode (trimChars p.data))).asString⟩ ∧
    b64Decode (b64EncodeBytes (b64Decode (trimChars p.data))).asString.data =
      b64Decode p.data := by
  constructor
  · rw [parseDataUrl_b64_png,
      if_neg (by simpa [List.length_eq_zero] using hp)]
  · have h1 : (List.asString (b64EncodeBytes (b64Decode (trimChars p.data)))).data =
        b64EncodeBytes (b64Decode (trimChars p.data)) := rfl
    rw [h1, b64_decode_encode (b64Decode (trimChars p.data))
      (b64DecodeSextets_lt (b64Sextets (trimChars p.data)) (b64Sextets_lt _)), b64Decode_trim]

/-- Concrete instantiation of `c8_base64_roundtrip` at payload "aGk="
("hi"). -/
theorem c8_base64_roundtrip_witness :
    trimChars "aGk=".data ≠ [] ∧
    (parseDataUrl ("data:image/png;base64," ++ "aGk=") =
        .ok ⟨"image/png", (b64EncodeBytes (b64Decode (trimChars "aGk=".data))).asString⟩ ∧
      b64Decode (b64EncodeBytes (b64Decode (trimChars "aGk=".data))).asString.data =
        b64Decode "aGk=".data) :=
  ⟨by decide, c8_base64_roundtrip "aGk=" (by decide)⟩

/-! Image-ingestion helper lemmas. -/

theorem toNat_ofNat_letter : ∀ n, n < 91 → 65 ≤ n → (Char.ofNat (n + 32)).toNat = n + 32 := by
  decide

theorem toLower_toLower (c : Char) : (Char.toLower c).toLower = Char.toLower c := by
  unfold Char.toLower
  dsimp only
  by_cases h : c.toNat ≥ 65 ∧ c.toNat ≤ 90
  · rw [if_pos h]
    have ht := toNat_ofNat_letter c.toNat (by omega) (by omega)
    rw [if_neg (by rw [ht]; omega)]
  · rw [if_neg h, if_neg h]

theorem map_toLower_idem (l : List Char) :
    (l.map Char.toLower).map Char.toLower = l.map Char.toLower := by
  rw [List.map_map]
  exact List.map_congr_left (fun c _ => toLower_toLower c)

theorem asString_ne_empty (l : List Char) (h : l ≠ []) : l.asString ≠ "" := by
  intro hc
  apply h
  have hd : (l.asString).data = ("" : String).data := by rw [hc]
  simpa using hd

theorem b64EncodeBytes_ne_nil : ∀ bs : List Nat, bs ≠ [] → b64EncodeBytes bs ≠ []
  | [], h => absurd rfl h
  | [_], _ => by simp [b64EncodeBytes]
  | [_, _], _ => by simp [b64EncodeBytes]
  | _ :: _ :: _ :: _, _ => by simp [b64EncodeBytes]

/-- A string whose code units are fixed by lower-casing and accepted by
`isImageMimeType` literally starts with "image/". -/
theorem lower_stable_image (s : String) (hs : s.data.map Char.toLower = s.data)
    (h : isImageMimeType s = true) : jsStartsWith s "image/" = true := by
  unfold isImageMimeType jsToLower at h
  rw [hs] at h
  exact h

theorem readChunksLimited_error (chunks : List (List Nat)) (maxBytes : Nat) :
    ∀ (totalBytes : Nat) (e : ImageError),
      readChunksLimited chunks maxBytes totalBytes = .error e →
      ∃ m, e = .notSupported m := by
  induction chunks with
  | nil =>
    intro t e h
    unfold readChunksLimited at h
    simp at h
  | cons c rest ih =>
    intro t e h
    unfold readChunksLimited at h
    dsimp only at h
    by_cases hgt : t + c.length > maxBytes
    · rw [if_pos hgt] at h
      simp at h
      exact ⟨_, h.symm⟩
    · rw [if_neg hgt] at h
      cases hr : readChunksLimited rest maxBytes (t + c.length) with
      | ok bufs => rw [hr] at h; simp at h
      | error e2 =>
        rw [hr] at h
        simp at h
        subst h
        exact ih _ _ hr

theorem readResponseBodyLimited_error (response : FetchResponse) (maxBytes : Nat)
    (e : ImageError) (h : readResponseBodyLimited response maxBytes = .error e) :
    ∃ m, e = .notSupported m := by
  unfold readResponseBodyLimited at h
  cases hb : response.bodyChunks with
  | none =>
    rw [hb] at h
    dsimp only at h
    by_cases hlen : response.fullBody.length > maxBytes
    · rw [if_pos hlen] at h
      simp at h
      exact ⟨_, h.symm⟩
    · rw [if_neg hlen] at h
      simp at h
  | some chunks =>
    rw [hb] at h
    dsimp only at h
    cases hr : readChunksLimited chunks maxBytes 0 with
    | ok bufs => rw [hr] at h; simp at h
    | error e2 =>
      rw [hr] at h
      simp at h
      subst h
      exact readChunksLimited_error chunks maxBytes 0 e2 hr

set_option maxHeartbeats 1000000 in
theorem inferMimeTypeFromUrl_ok (url : URLRec) (m : String)
    (h : inferMimeTypeFromUrl url = some m) : jsStartsWith m "image/" = true := by
  unfold inferMimeTypeFromUrl at h
  dsimp only at h
  split_ifs at h
  all_goals rw [← Option.some.inj h]
  all_goals decide

theorem fetchRemoteImageAsBase64_error (fetchFn : URLRec → FetchOutcome) (url : URLRec)
    (e : ImageError) (h : fetchRemoteImageAsBase64 fetchFn url = .error e) :
    ∃ m, e = .notSupported m := by
  unfold fetchRemoteImageAsBase64 at h
  cases hf : fetchFn url with
  | failure message =>
    rw [hf] at h
    simp at h
    exact ⟨_, h.symm⟩
  | success response =>
    rw [hf] at h
    dsimp only at h
    by_cases hok : (!response.ok) = true
    · rw [if_pos hok] at h
      simp at h
      exact ⟨_, h.symm⟩
    · rw [if_neg hok] at h
      split at h
      · simp at h
        exact ⟨_, h.symm⟩
      · rename_i mimeType hmt
        cases hr : readResponseBodyLimited response MAX_REMOTE_IMAGE_BYTES with
        | error e2 =>
          rw [hr] at h
          simp at h
          subst h
          exact readResponseBodyLimited_error response MAX_REMOTE_IMAGE_BYTES e2 hr
        | ok bytes =>
          rw [hr] at h
          dsimp only at h
          by_cases hz : bytes.length = 0
          · rw [if_pos hz] at h
            simp at h
            exact ⟨_, h.symm⟩
          · rw [if_neg hz] at h
            simp at h

theorem headerMimeTypeOf_stable (contentType : Option String) :
    (headerMimeTypeOf contentType).data.map Char.toLower =
      (headerMimeTypeOf contentType).data := by
  cases contentType with
  | none => rfl
  | some header =>
    simp only [headerMimeTypeOf]
    cases hs : splitOnChar ';' header.data with
    | nil => rfl
    | cons part rest => exact map_toLower_idem _

theorem fetchRemoteImageAsBase64_ok (fetchFn : URLRec → FetchOutcome) (url : URLRec)
    (parsed : ParsedImage) (h : fetchRemoteImageAsBase64 fetchFn url = .ok parsed) :
    jsStartsWith parsed.mimeType "image/" = true ∧ parsed.data ≠ "" := by
  unfold fetchRemoteImageAsBase64 at h
  cases hf : fetchFn url with
  | failure message => rw [hf] at h; simp at h
  | success response =>
    rw [hf] at h
    dsimp only at h
    by_cases hok : (!response.ok) = true
    · rw [if_pos hok] at h
      simp at h
    · rw [if_neg hok] at h
      by_cases him : isImageMimeType (headerMimeTypeOf response.contentType) = true
      · rw [if_pos him] at h
        dsimp only at h
        cases hr : readResponseBodyLimited response MAX_REMOTE_IMAGE_BYTES with
        | error e => rw [hr] at h; simp at h
        | ok bytes =>
          rw [hr] at h
          dsimp only at h
          by_cases hz : bytes.length = 0
          · rw [if_pos hz] at h
            simp at h
          · rw [if_neg hz] at h
            simp only [Except.ok.injEq] at h
            subst h
            refine ⟨lower_stable_image _ (headerMimeTypeOf_stable _) him, ?_⟩
            exact asString_ne_empty _
              (b64EncodeBytes_ne_nil bytes (fun hb => hz (by rw [hb]; rfl)))
      · rw [if_neg him] at h
        cases hm2 : inferMimeTypeFromUrl url with
        | none => rw [hm2] at h; simp at h
        | some m =>
          rw [hm2] at h
          dsimp only at h
          cases hr : readResponseBodyLimited response MAX_REMOTE_IMAGE_BYTES with
          | error e => rw [hr] at h; simp at h
          | ok bytes =>
            rw [hr] at h
            dsimp only at h
            by_cases hz : bytes.length = 0
            · rw [if_pos hz] at h
              simp at h
            · rw [if_neg hz] at h
              simp only [Except.ok.injEq] at h
              subst h
              refine ⟨inferMimeTypeFromUrl_ok url m hm2, ?_⟩
              exact asString_ne_empty _
                (b64EncodeBytes_ne_nil bytes (fun hb => hz (by rw [hb]; rfl)))

/-- The metadata mime pick is lower-case-stable when every candidate part
is. -/
theorem mime_pick_stable (parts : List (List Char)) :
    (∀ p ∈ parts, p.map Char.toLower = p) →
    (match parts with
      | first :: _ => if first.contains '=' then "text/plain".data else first
      | [] => "text/plain".data).map Char.toLower =
    (match parts with
      | first :: _ => if first.contains '=' then "text/plain".data else first
      | [] => "text/plain".data) := by
  cases parts with
  | nil => intro _; decide
  | cons first rest =>
    intro hstable
    dsimp only
    by_cases hc : (first.contains '=') = true
    · rw [if_pos hc]
      decide
    · rw [if_neg hc]
      exact hstable first (List.mem_cons_self _ _)

theorem parseDataUrl_ok_mime (s : String) (parsed : ParsedImage)
    (h : parseDataUrl s = .ok parsed) :
    jsStartsWith parsed.mimeType "image/" = true := by
  unfold parseDataUrl at h
  dsimp only at h
  cases hc : findCommaIdx s.data with
  | none => rw [hc] at h; simp at h
  | some commaIndex =>
    rw [hc] at h
    dsimp only at h
    have hstable : ∀ p ∈ ((splitOnChar ';' ((s.data.drop 5).take (commaIndex - 5))).map
        (fun part : List Char => (trimChars part).map Char.toLower)).filter
          (fun part : List Char => part.length > 0), p.map Char.toLower = p := by
      intro p hp
      obtain ⟨part, _, hpart⟩ := List.mem_map.mp (List.mem_filter.mp hp).1
      rw [← hpart]
      exact map_toLower_idem _
    have hstab := mime_pick_stable _ hstable
    by_cases hmime : (!isImageMimeType
        (match ((splitOnChar ';' ((s.data.drop 5).take (commaIndex - 5))).map
            (fun part : List Char => (trimChars part).map Char.toLower)).filter
              (fun part : List Char => part.length > 0) with
          | first :: _ => if first.contains '=' then "text/plain".data else first
          | [] => "text/plain".data).asString) = true
    · rw [if_pos hmime] at h
      simp at h
    · rw [if_neg hmime] at h
      by_cases hb : (((splitOnChar ';' ((s.data.drop 5).take (commaIndex - 5))).map
          (fun part : List Char => (trimChars part).map Char.toLower)).filter
            (fun part : List Char => part.length > 0)).contains "base64".data = true
      · rw [if_pos hb] at h
        by_cases hz : (trimChars (s.data.drop (commaIndex + 1))).length = 0
        · rw [if_pos hz] at h
          simp at h
        · rw [if_neg hz] at h
          simp only [Except.ok.injEq] at h
          subst h
          exact lower_stable_image _ hstab (by simpa using hmime)
      · rw [if_neg hb] at h
        cases hd : percentDecodeChars (s.data.drop (commaIndex + 1)) with
        | none => rw [hd] at h; simp at h
        | some decoded =>
          rw [hd] at h
          simp only [Except.ok.injEq] at h
          subst h
          exact lower_stable_image _ hstab (by simpa using hmime)

/-- C4 counterexample: ingestion of the data URI "data:image/png," (an
image mime with an empty non-base64 payload) returns successfully with
empty data, so ingestion can partially succeed — a mime type with no
bytes — contrary to "non-empty base64 data" whenever it returns. -/
theorem c4_ingestion_counterexample :
    toPiImageContent failingFetch "data:image/png," =
      .ok ⟨"image", "", "image/png"⟩ := rfl

/-- C4 amended: whenever ingestion returns, the mimeType starts with
"image/", and for remote (non-data-URI) inputs the base64 data is
non-empty (data-URI inputs may yield empty data); whenever ingestion
fails, the error is an ImageNotSupportedError except that a non-base64
data-URI payload with a malformed percent escape raises the uncaught
URIError from decodeURIComponent — the URIError can only arise on
data-URI inputs. -/
theorem c4_ingestion_error_contract (fetchFn : URLRec → FetchOutcome) (urlValue : String) :
    (∀ r, toPiImageContent fetchFn urlValue = .ok r →
      jsStartsWith r.mimeType "image/" = true ∧
      (jsStartsWith (jsToLower (jsTrim urlValue)) "data:" = false → r.data ≠ "")) ∧
    (∀ e, toPiImageContent fetchFn urlValue = .error e →
      (∃ m, e = .notSupported m) ∨
      (e = .uriError ∧ jsStartsWith (jsToLower (jsTrim urlValue)) "data:" = true)) := by
  unfold toPiImageContent
  dsimp only
  by_cases h0 : (jsTrim urlValue == "") = true
  · rw [if_pos h0]
    refine ⟨fun r hr => by simp at hr, fun e he => ?_⟩
    simp only [Except.error.injEq] at he
    exact Or.inl ⟨_, he.symm⟩
  · rw [if_neg h0]
    by_cases h1 : jsStartsWith (jsToLower (jsTrim urlValue)) "data:" = true
    · rw [if_pos h1]
      cases hp : parseDataUrl (jsTrim urlValue) with
      | ok parsedData =>
        dsimp only
        refine ⟨fun r hr => ?_, fun e he => by simp at he⟩
        simp only [Except.ok.injEq] at hr
        subst hr
        refine ⟨parseDataUrl_ok_mime _ _ hp, fun h1f => ?_⟩
        rw [h1f] at h1
        exact absurd h1 (by decide)
      | error eData =>
        dsimp only
        refine ⟨fun r hr => by simp at hr, fun e he => ?_⟩
        simp only [Except.error.injEq] at he
        subst he
        cases eData with
        | notSupported m => exact Or.inl ⟨m, rfl⟩
        | uriError => exact Or.inr ⟨rfl, h1⟩
    · rw [if_neg h1]
      cases hu : parseURL (jsTrim urlValue) with
      | none =>
        dsimp only
        refine ⟨fun r hr => by simp at hr, fun e he => ?_⟩
        simp only [Except.error.injEq] at he
        exact Or.inl ⟨_, he.symm⟩
      | some u =>
        dsimp only
        by_cases h2 : u.protocol ≠ "http:" ∧ u.protocol ≠ "https:"
        · rw [if_pos h2]
          refine ⟨fun r hr => by simp at hr, fun e he => ?_⟩
          simp only [Except.error.injEq] at he
          exact Or.inl ⟨_, he.symm⟩
        · rw [if_neg h2]
          by_cases h3 : isBlockedImageHostname u.hostname = true
          · rw [if_pos h3]
            refine ⟨fun r hr => by simp at hr, fun e he => ?_⟩
            simp only [Except.error.injEq] at he
            exact Or.inl ⟨_, he.symm⟩
          · rw [if_neg h3]
            cases hfr : fetchRemoteImageAsBase64 fetchFn u with
            | ok remote =>
              dsimp only
              refine ⟨fun r hr => ?_, fun e he => by simp at he⟩
              simp only [Except.ok.injEq] at hr
              subst hr
              obtain ⟨hm, hd⟩ := fetchRemoteImageAsBase64_ok fetchFn u remote hfr
              exact ⟨hm, fun _ => hd⟩
            | error efetch =>
              dsimp only
              refine ⟨fun r hr => by simp at hr, fun e he => ?_⟩
              simp only [Except.error.injEq] at he
              subst he
              exact Or.inl (fetchRemoteImageAsBase64_error fetchFn u _ hfr)

/-- Concrete instantiation of `c4_ingestion_error_contract`: a successful
remote png fetch yields mime "image/png" (starting with "image/") and
non-empty base64 data "iVBORw==". -/
theorem c4_ingestion_error_contract_witness :
    toPiImageContent okPngFetch "http://example.com/a.png" =
      .ok ⟨"image", "iVBORw==", "image/png"⟩ ∧
    jsStartsWith "image/png" "image/" = true ∧ ("iVBORw==" : String) ≠ "" := by
  refine ⟨rfl, ?_, ?_⟩
  · exact ((c4_ingestion_error_contract okPngFetch "http://example.com/a.png").1
      ⟨"image", "iVBORw==", "image/png"⟩ rfl).1
  · exact ((c4_ingestion_error_contract okPngFetch "http://example.com/a.png").1
      ⟨"image", "iVBORw==", "image/png"⟩ rfl).2 (by decide)

/-- C5: the program does not block any IPv6 literal host arriving through a
URL. For http://[::1]/a.png the WHATWG hostname keeps its brackets
("[::1]"), `net.isIP` returns 0 on the bracketed string, and
`isBlockedImageHostname` falls through every branch to `false`, so
ingestion of the spec-listed hostname ::1 proceeds to a successful fetch
instead of failing with ImageNotSupportedError — even though the blocklist
itself would reject the unbracketed literal "::1", showing the IPv6
entries (and the ::ffff: unwrap) are intended but unreachable from the
ingestion path. -/
theorem c5_ipv6_blocklist_unreachable :
    parseURL "http://[::1]/a.png" = some ⟨"http:", "[::1]", "/a.png"⟩ ∧
    isIP "[::1]" = 0 ∧
    isBlockedImageHostname "[::1]" = false ∧
    isBlockedImageHostname "::1" = true ∧
    toPiImageContent okPngFetch "http://[::1]/a.png" =
      .ok ⟨"image", "iVBORw==", "image/png"⟩ :=
  ⟨rfl, rfl, rfl, rfl, rfl⟩
